import Mathlib

set_option linter.unusedVariables false

/-!
Shallow embedding of the training/evaluation driver `nmt/train.py`.

The driver orchestrates side effects of a deep-learning framework
(graph construction, sessions, checkpoint saving, summary writing,
printing) around a training loop.  We embed the driver as pure Lean
functions over an `Oracle` that supplies every value the environment
produces (training-step results, computed perplexities and scores,
random entropy, file contents, pre-existing checkpoints), and each
embedded function returns, besides its value, the list of observable
side effects (`Event`s) it performs, in order.
-/

/-- Python float values as the driver manipulates them: NaN, the two
infinities, and finite values modelled as rationals. -/
inductive PFloat
  | nan
  | inf
  | ninf
  | val (q : ℚ)
deriving DecidableEq

namespace PFloat

/-- Python float addition (IEEE semantics on the special values). -/
def padd : PFloat → PFloat → PFloat
  | nan, _ => nan
  | _, nan => nan
  | inf, ninf => nan
  | ninf, inf => nan
  | inf, _ => inf
  | _, inf => inf
  | ninf, _ => ninf
  | _, ninf => ninf
  | val a, val b => val (a + b)

/-- Python float multiplication (IEEE semantics on the special values). -/
def pmul : PFloat → PFloat → PFloat
  | nan, _ => nan
  | _, nan => nan
  | inf, inf => inf
  | inf, ninf => ninf
  | ninf, inf => ninf
  | ninf, ninf => inf
  | inf, val b => if b = 0 then nan else if 0 < b then inf else ninf
  | val a, inf => if a = 0 then nan else if 0 < a then inf else ninf
  | ninf, val b => if b = 0 then nan else if 0 < b then ninf else inf
  | val a, ninf => if a = 0 then nan else if 0 < a then ninf else inf
  | val a, val b => val (a * b)

/-- Python float division.  `none` models the `ZeroDivisionError` that
Python raises when the divisor is (exactly) zero. -/
def pdiv (x y : PFloat) : Option PFloat :=
  match y with
  | val b =>
    if b = 0 then none
    else
      match x with
      | nan => some nan
      | inf => some (if 0 < b then inf else ninf)
      | ninf => some (if 0 < b then ninf else inf)
      | val a => some (val (a / b))
  | nan => some nan
  | inf =>
    some (match x with
      | nan => nan
      | inf => nan
      | ninf => nan
      | val _ => val 0)
  | ninf =>
    some (match x with
      | nan => nan
      | inf => nan
      | ninf => nan
      | val _ => val 0)

/-- Models `math.isnan`. -/
def isNaN : PFloat → Bool
  | nan => true
  | _ => false

/-- Python float strict greater-than: every comparison with NaN is false. -/
def pgt : PFloat → PFloat → Bool
  | nan, _ => false
  | _, nan => false
  | inf, inf => false
  | inf, _ => true
  | _, inf => false
  | ninf, _ => false
  | val _, ninf => true
  | val a, val b => decide (b < a)

/-- Models `utils.safe_exp` (`math.exp` with `OverflowError` mapped to
`+inf`).  `math.exp` never returns NaN on a non-NaN argument and returns
NaN on NaN; no claim depends on the numeric value of a finite result, so
the finite case is abstracted to an arbitrary finite value. -/
def safeExp : PFloat → PFloat
  | nan => nan
  | inf => inf
  | ninf => val 0
  | val _ => val 0

end PFloat

/-- The three model classes `train` can instantiate (train.py lines
149-156): `nmt_model.Model`, `attention_model.AttentionModel`,
`gnmt_model.GNMTModel`. -/
inductive ModelCreator
  | Model
  | AttentionModel
  | GNMTModel
deriving DecidableEq

/-- The hyperparameters `train` reads or mutates.  Python falsiness of the
string-valued options is modelled by the empty string, and of
`steps_per_external_eval` by `0`.  `devPref` / `testPref` / `trainPref`
stand for the source fields `dev_prefix` / `test_prefix` / `train_prefix`.
`best m` models `getattr(hparams, "best_" + m)` and `bestDir m` models
`getattr(hparams, "best_" + m + "_dir")`. -/
structure Hparams where
  attention : String
  attention_architecture : String
  out_dir : String
  num_train_steps : Nat
  steps_per_stats : Nat
  steps_per_external_eval : Nat
  batch_size : Nat
  epoch_step : Nat
  devPref : String
  testPref : String
  src : String
  tgt : String
  metrics : List String
  best : String → PFloat
  bestDir : String → String
  infer_batch_size : Nat

/-- Dev-set source file name `"%s.%s" % (hparams.dev_prefix, hparams.src)`. -/
def devSrcFile (h : Hparams) : String := h.devPref ++ "." ++ h.src

/-- Dev-set target file name. -/
def devTgtFile (h : Hparams) : String := h.devPref ++ "." ++ h.tgt

/-- Test-set source file name. -/
def testSrcFile (h : Hparams) : String := h.testPref ++ "." ++ h.src

/-- Test-set target file name. -/
def testTgtFile (h : Hparams) : String := h.testPref ++ "." ++ h.tgt

/-- Models `os.path.join` for the two-argument uses in train.py. -/
def pathJoin (a b : String) : String := a ++ "/" ++ b

/-- The tuple a successful `train_model.train(train_sess)` step returns
(minus the values the driver discards).  The TF training op increments the
`global_step` variable by exactly one, so the embedding tracks the new
global step as `previous + 1` instead of carrying it here. -/
structure StepRes where
  step_loss : PFloat
  step_predict_count : PFloat
  step_word_count : Nat
  batch_size : Nat
  elapsed : ℚ
deriving DecidableEq

/-- Outcome of one `train_model.train` call: a result tuple, or
`tf.errors.OutOfRangeError` when the training dataset is exhausted. -/
inductive StepOutcome
  | ok (r : StepRes)
  | outOfRange
deriving DecidableEq

/-- Everything the environment supplies to the driver, indexed (where
stateful) by a consumption counter threaded through the run:
`rand` is the entropy behind `random.randint`, `nmtOut` the decoded
translation of the sampled sentence, `attnSum` whether `model.decode`
returned a non-None attention summary, `pplOf` the perplexity
`model_helper.compute_perplexity` reports, `scoresOf` the metric scores
`nmt_utils.decode_and_evaluate` reports, `stepOf` the training-step
outcomes, `initCkpt` the global step recorded in the latest pre-existing
checkpoint of each directory (0 when the directory has none), and the
`*_data` lists are the line contents `inference.load_data` reads. -/
structure Oracle where
  rand : Nat → Nat
  nmtOut : Nat → String
  attnSum : Nat → Bool
  pplOf : Nat → PFloat
  scoresOf : Nat → String → PFloat
  stepOf : Nat → StepOutcome
  initCkpt : String → Nat
  dev_src_data : List String
  dev_tgt_data : List String
  test_src_data : List String

/-- Observable side effects of the driver, in program order. -/
inductive Event
  | createGraph (g : String)
  | createIterator (g : String)
  | createModel (g : String) (mc : ModelCreator)
  | openLogFile (dir : String)
  | createSession (g : String)
  | loadModel (g : String) (dir : String) (step : Nat)
  | createSummaryWriter (path : String)
  | addSummary (tag : String) (step : Nat) (value : PFloat)
  | stepSummary (step : Nat)
  | attnSummary (step : Nat)
  | saveCkpt (dir : String) (step : Nat)
  | initTrainIterator (skip : Nat)
  | initEvalIterator (srcFile tgtFile : String)
  | initInferIterator (srcs : List String) (batch : Nat)
  | printOut (s : String)
  | printDecodeId (i : Nat)
  | printStats (step : Nat) (ppl : PFloat)
  | printStartStep (step : Nat)
  | printBest
  | printFinal (step : Nat)
  | closeWriter
  | printDone
  | decodeOp
  | decodeAndEvaluate (label : String) (decode : Bool) (outputF refF : String)
  | computePerplexity (label : String) (ppl : PFloat)
  | saveHparams
deriving DecidableEq

/-- Python exceptions the driver can let escape. -/
inductive PyErr
  | valueError
  | indexError
  | zeroDivision
deriving DecidableEq

/-- The mutable world threaded through a run: the oracle-consumption
counter, the latest checkpointed global step per directory (updated by
`saver.save`, read by `create_or_load_model`), and the (mutable)
hyperparameters object. -/
structure World where
  ctr : Nat
  ckpt : String → Nat
  h : Hparams

/-- Consume one oracle value. -/
def World.bump (w : World) : World := { w with ctr := w.ctr + 1 }

/-- Pointwise update of the per-directory checkpoint store. -/
def updCkpt (f : String → Nat) (k : String) (v : Nat) : String → Nat :=
  fun x => if x = k then v else f x

/-- Models `random.randint lo hi` (both bounds inclusive) on entropy `r`,
for `lo ≤ hi`; callers model Python's ValueError on an empty range
themselves. -/
def pyRandint (r lo hi : Nat) : Nat := lo + r % (hi + 1 - lo)

/-- Embeds `_sample_decode` (train.py lines 449-475): pick a random dev
sentence, decode it, print source/reference/translation, and write the
attention summary when one was produced.  Raises ValueError (from
`random.randint(0, -1)`) when the dev source data is empty, and
IndexError when the dev target data is shorter than the chosen index. -/
def sample_decode (o : Oracle) (global_step : Nat) (w : World) :
    Except PyErr (World × List Event) :=
  if o.dev_src_data.length = 0 then
    .error .valueError
  else
    let decode_id := pyRandint (o.rand w.ctr) 0 (o.dev_src_data.length - 1)
    let w1 := w.bump
    let srcSent := o.dev_src_data.getD decode_id ("")
    if o.dev_tgt_data.length ≤ decode_id then
      .error .indexError
    else
      let refSent := o.dev_tgt_data.getD decode_id ("")
      let translation := o.nmtOut w1.ctr
      let w2 := w1.bump
      let ev0 : List Event :=
        [ .printDecodeId decode_id
        , .initInferIterator [srcSent] 1
        , .decodeOp
        , .printOut ("    src: " ++ srcSent)
        , .printOut ("    ref: " ++ refSent)
        , .printOut ("    nmt: " ++ translation) ]
      let ev1 := if o.attnSum w2.ctr then ev0 ++ [Event.attnSummary global_step] else ev0
      .ok (w2.bump, ev1)

/-- Embeds `_internal_eval` (train.py lines 440-446): initialise the eval
iterator on the given files, compute perplexity, and record it as a
summary tagged `<label>_ppl` at the given global step. -/
def internal_eval (o : Oracle) (global_step : Nat) (srcFile tgtFile : String)
    (label : String) (w : World) : PFloat × World × List Event :=
  let ppl := o.pplOf w.ctr
  (ppl, w.bump,
    [ .initEvalIterator srcFile tgtFile
    , .computePerplexity label ppl
    , .addSummary (label ++ "_ppl") global_step ppl ])

/-- One iteration of the metric loop of `_external_eval` (train.py lines
503-512): record the score summary and, when `save_on_best` holds and the
score strictly exceeds the stored best, update `best_<metric>` and save a
checkpoint under `best_<metric>_dir`. -/
def extEvalMetricStep (global_step : Nat) (label : String) (save_on_best : Bool)
    (scores : String → PFloat) (m : String) (w : World) : World × List Event :=
  let ev0 : List Event := [.addSummary (label ++ "_" ++ m) global_step (scores m)]
  if save_on_best && (scores m).pgt (w.h.best m) then
    let h' := { w.h with best := fun x => if x = m then scores m else w.h.best x }
    let w' := { w with h := h', ckpt := updCkpt w.ckpt (w.h.bestDir m) global_step }
    (w', ev0 ++ [Event.saveCkpt (w.h.bestDir m) global_step])
  else (w, ev0)

/-- The metric loop of `_external_eval` over the whole metrics list. -/
def extEvalMetrics (global_step : Nat) (label : String) (save_on_best : Bool)
    (scores : String → PFloat) : List String → World → World × List Event
  | [], w => (w, [])
  | m :: rest, w =>
    let p1 := extEvalMetricStep global_step label save_on_best scores m w
    let p2 := extEvalMetrics global_step label save_on_best scores rest p1.1
    (p2.1, p1.2 ++ p2.2)

/-- Embeds `_external_eval` (train.py lines 478-514): decode and evaluate
the given set, and when `global_step > 0` record per-metric summaries,
best-metric checkpoints, and save the hyperparameters. -/
def external_eval (o : Oracle) (global_step : Nat) (label : String)
    (srcs : List String) (infer_batch : Nat) (tgt_file : String)
    (save_on_best : Bool) (w : World) : (String → PFloat) × World × List Event :=
  let decode : Bool := decide (0 < global_step)
  let ev0 : List Event :=
    if decode then
      [.printOut ("# External evaluation, global step " ++ toString global_step)]
    else []
  let ev1 : List Event := [.initInferIterator srcs infer_batch]
  let scores := o.scoresOf w.ctr
  let w1 := w.bump
  let ev2 : List Event :=
    [.decodeAndEvaluate label decode (pathJoin w.h.out_dir ("output_" ++ label)) tgt_file]
  if decode then
    let p := extEvalMetrics global_step label save_on_best scores w1.h.metrics w1
    (scores, p.1, ev0 ++ ev1 ++ ev2 ++ p.2 ++ [Event.saveHparams])
  else
    (scores, w1, ev0 ++ ev1 ++ ev2)

/-- Embeds the closure `run_internal_eval` (train.py lines 223-246):
reload the infer and eval models from `model_dir`, sample-decode one dev
sentence, then compute dev perplexity, and test perplexity exactly when
`test_prefix` is set. -/
def run_internal_eval (o : Oracle) (model_dir : String) (w : World) :
    Except PyErr ((PFloat × Option PFloat) × World × List Event) :=
  let gs := w.ckpt model_dir
  match sample_decode o gs w with
  | .error e => .error e
  | .ok (w1, evS) =>
    let p := internal_eval o gs (devSrcFile w1.h) (devTgtFile w1.h) ("dev") w1
    let dev_ppl := p.1
    let w2 := p.2.1
    let evD := p.2.2
    if w2.h.testPref = "" then
      .ok ((dev_ppl, none), w2,
        [Event.loadModel ("infer") model_dir gs] ++ evS
          ++ [Event.loadModel ("eval") model_dir gs] ++ evD)
    else
      let q := internal_eval o gs (testSrcFile w2.h) (testTgtFile w2.h) ("test") w2
      .ok ((dev_ppl, some q.1), q.2.1,
        [Event.loadModel ("infer") model_dir gs] ++ evS
          ++ [Event.loadModel ("eval") model_dir gs] ++ evD ++ q.2.2)

/-- Embeds the closure `run_external_eval` (train.py lines 249-284):
reload the infer model from `model_dir`, sample-decode one dev sentence,
then run external evaluation on the dev set with
`save_on_best = not eval_only`, and on the test set (never saving on
best) exactly when `test_prefix` is set. -/
def run_external_eval (o : Oracle) (model_dir : String) (eval_only : Bool) (w : World) :
    Except PyErr (((String → PFloat) × Option (String → PFloat)) × World × List Event) :=
  let gs := w.ckpt model_dir
  match sample_decode o gs w with
  | .error e => .error e
  | .ok (w1, evS) =>
    let p := external_eval o gs ("dev") o.dev_src_data w1.h.infer_batch_size
      (devTgtFile w1.h) (!eval_only) w1
    let dev_scores := p.1
    let w2 := p.2.1
    let evD := p.2.2
    if w2.h.testPref = "" then
      .ok ((dev_scores, none), w2,
        [Event.loadModel ("infer") model_dir gs] ++ evS ++ evD)
    else
      let q := external_eval o gs ("test") o.test_src_data w2.h.infer_batch_size
        (testTgtFile w2.h) false w2
      .ok ((dev_scores, some q.1), q.2.1,
        [Event.loadModel ("infer") model_dir gs] ++ evS ++ evD ++ q.2.2)

/-- Selection of the model class (train.py lines 149-156): the plain
seq2seq model when `hparams.attention` is falsy, the attention model for
architecture `"standard"`, the GNMT model for `"gnmt"` / `"gnmt_v2"`, and
otherwise `ValueError("Unknown model architecture")`. -/
def selectModelCreator (h : Hparams) : Except String ModelCreator :=
  if h.attention = "" then .ok .Model
  else if h.attention_architecture = "standard" then .ok .AttentionModel
  else if h.attention_architecture = "gnmt" ∨ h.attention_architecture = "gnmt_v2" then
    .ok .GNMTModel
  else .error ("Unknown model architecture")

/-- Events of constructing the three graphs, iterators and models
(train.py lines 158-167, via `create_train_model`, `create_eval_model`
and `inference.create_infer_model`), all with the same model creator. -/
def createModelsEv (mc : ModelCreator) : List Event :=
  [ .createGraph ("train"), .createIterator ("train"), .createModel ("train") mc
  , .createGraph ("eval"), .createIterator ("eval"), .createModel ("eval") mc
  , .createGraph ("infer"), .createIterator ("infer"), .createModel ("infer") mc ]

/-- The local `steps_per_eval = 10 * steps_per_stats` (train.py line 139). -/
def stepsPerEvalOf (h : Hparams) : Nat := 10 * h.steps_per_stats

/-- The local `steps_per_external_eval` after its default is applied
(train.py lines 138-141): `5 * steps_per_eval` when the hyperparameter is
falsy, the hyperparameter itself otherwise. -/
def stepsPerExtOf (h : Hparams) : Nat :=
  if h.steps_per_external_eval = 0 then 5 * stepsPerEvalOf h else h.steps_per_external_eval

/-- The loop-invariant configuration of a `train` run. -/
structure TrainCfg where
  eval_only : Bool
  num_train_steps : Nat
  steps_per_stats : Nat
  steps_per_eval : Nat
  steps_per_ext : Nat
  out_dir : String
  model_dir : String

/-- Configuration `train` derives from its arguments (train.py lines
136-141 and 189-197). -/
def mkCfg (h : Hparams) (eval_only : Bool) : TrainCfg :=
  { eval_only := eval_only
  , num_train_steps := h.num_train_steps
  , steps_per_stats := h.steps_per_stats
  , steps_per_eval := stepsPerEvalOf h
  , steps_per_ext := stepsPerExtOf h
  , out_dir := h.out_dir
  , model_dir := if eval_only then h.bestDir (h.metrics.getD 0 ("")) else h.out_dir }

/-- The local mutable state of the training loop (train.py lines 287-297
plus the loop variable `global_step`). -/
structure LoopSt where
  w : World
  global_step : Nat
  step_time : ℚ
  checkpoint_loss : PFloat
  checkpoint_predict_count : PFloat
  checkpoint_total_count : PFloat
  avg_step_time : ℚ
  speed : PFloat
  train_ppl : PFloat
  dev_ppl : PFloat
  test_ppl : Option PFloat
  all_dev : List PFloat
  all_test : List (Option PFloat)
  all_steps : List Nat

/-- Result of one loop iteration: continue, `break` (NaN perplexity), or
an uncaught Python exception. -/
inductive IterRes
  | cont (s : LoopSt) (ev : List Event)
  | brk (s : LoopSt) (ev : List Event)
  | err (e : PyErr)

/-- The `if global_step % steps_per_external_eval == 0` block at the end
of a successful loop iteration (train.py lines 382-388). -/
def afterExt (o : Oracle) (cfg : TrainCfg) (s : LoopSt) (ev : List Event) : IterRes :=
  if s.global_step % cfg.steps_per_ext = 0 then
    let ev1 := ev ++ [Event.saveCkpt cfg.out_dir s.global_step]
    let w1 := { s.w with ckpt := updCkpt s.w.ckpt cfg.out_dir s.global_step }
    match run_external_eval o cfg.model_dir cfg.eval_only w1 with
    | .error e => .err e
    | .ok (_, w2, evE) => .cont { s with w := w2 } (ev1 ++ evE)
  else .cont s ev

/-- The `if global_step % steps_per_eval == 0` block of a successful loop
iteration (train.py lines 365-380), followed by the external-eval block. -/
def afterStats (o : Oracle) (cfg : TrainCfg) (s : LoopSt) (ev : List Event) : IterRes :=
  if s.global_step % cfg.steps_per_eval = 0 then
    let ev1 := ev ++
      [ Event.printOut ("# Save eval, global step " ++ toString s.global_step)
      , Event.addSummary ("train_ppl") s.global_step s.train_ppl
      , Event.saveCkpt cfg.out_dir s.global_step ]
    let w1 := { s.w with ckpt := updCkpt s.w.ckpt cfg.out_dir s.global_step }
    match run_internal_eval o cfg.model_dir w1 with
    | .error e => .err e
    | .ok (dt, w2, evI) =>
      afterExt o cfg
        { s with w := w2, dev_ppl := dt.1, test_ppl := dt.2
               , all_dev := s.all_dev ++ [dt.1], all_test := s.all_test ++ [dt.2]
               , all_steps := s.all_steps ++ [s.global_step] }
        (ev1 ++ evI)
  else afterExt o cfg s ev

/-- One iteration of the training while-loop body (train.py lines
316-388), entered with the loop guard already true.  On
`OutOfRangeError`: reset `epoch_step`, run one external evaluation,
re-initialise the train iterator with skip count 0, and continue.  On a
successful step: the TF training op increments `global_step` by one;
update the statistics, then run the periodic statistics / internal-eval /
external-eval blocks. -/
def loopIter (o : Oracle) (cfg : TrainCfg) (s : LoopSt) : IterRes :=
  match o.stepOf s.w.ctr with
  | .outOfRange =>
    let wb := s.w.bump
    let w0 := { wb with h := { wb.h with epoch_step := 0 } }
    let evA : List Event :=
      [Event.printOut ("# Finished an epoch, step " ++ toString s.global_step
        ++ ". Perform external evaluation")]
    match run_external_eval o cfg.model_dir cfg.eval_only w0 with
    | .error e => .err e
    | .ok (_, w1, evB) =>
      .cont { s with w := w1 } (evA ++ evB ++ [Event.initTrainIterator 0])
  | .ok r =>
    let gs := s.global_step + 1
    let wb := s.w.bump
    let w0 := { wb with h := { wb.h with epoch_step := wb.h.epoch_step + 1 } }
    let ev1 : List Event := [Event.stepSummary gs]
    let step_time := s.step_time + r.elapsed
    let cl := s.checkpoint_loss.padd (r.step_loss.pmul (PFloat.val (r.batch_size : ℚ)))
    let cpc := s.checkpoint_predict_count.padd r.step_predict_count
    let ctc := s.checkpoint_total_count.padd (PFloat.val (r.step_word_count : ℚ))
    let sA := { s with w := w0, global_step := gs, step_time := step_time
                     , checkpoint_loss := cl, checkpoint_predict_count := cpc
                     , checkpoint_total_count := ctc }
    if cfg.steps_per_stats = 0 then .err .zeroDivision
    else if gs % cfg.steps_per_stats = 0 then
      let avg := step_time / (cfg.steps_per_stats : ℚ)
      match cl.pdiv cpc with
      | none => .err .zeroDivision
      | some x =>
        let tppl := PFloat.safeExp x
        match ctc.pdiv (PFloat.val (1000 * step_time)) with
        | none => .err .zeroDivision
        | some spd =>
          let ev2 := ev1 ++ [Event.printStats gs tppl]
          if tppl.isNaN then
            .brk { sA with avg_step_time := avg, speed := spd, train_ppl := tppl } ev2
          else
            afterStats o cfg
              { sA with avg_step_time := avg, speed := spd, train_ppl := tppl
                      , step_time := 0, checkpoint_loss := PFloat.val 0
                      , checkpoint_predict_count := PFloat.val 0
                      , checkpoint_total_count := PFloat.val 0 } ev2
    else afterStats o cfg sA ev1

/-- Result of running the while-loop to completion (guard false), a
`break`, an uncaught exception, or fuel exhaustion (a modelling artifact:
the Python loop may run unboundedly for adversarial oracles). -/
inductive LoopOut
  | done (s : LoopSt) (ev : List Event)
  | broke (s : LoopSt) (ev : List Event)
  | err (e : PyErr)
  | fuelOut (s : LoopSt) (ev : List Event)

/-- The training while-loop (train.py line 315), with explicit fuel. -/
def trainLoop (o : Oracle) (cfg : TrainCfg) : Nat → LoopSt → LoopOut
  | 0, s =>
    if s.global_step < cfg.num_train_steps ∧ cfg.eval_only = false then .fuelOut s []
    else .done s []
  | Nat.succ fuel, s =>
    if s.global_step < cfg.num_train_steps ∧ cfg.eval_only = false then
      match loopIter o cfg s with
      | .err e => .err e
      | .brk s1 ev => .broke s1 ev
      | .cont s1 ev =>
        match trainLoop o cfg fuel s1 with
        | .done s2 ev2 => .done s2 (ev ++ ev2)
        | .broke s2 ev2 => .broke s2 (ev ++ ev2)
        | .err e => .err e
        | .fuelOut s2 ev2 => .fuelOut s2 (ev ++ ev2)
    else .done s []

/-- Overall outcome of a `train` run. -/
inductive TrainOutcome
  | valueError (msg : String)
  | pyError (e : PyErr)
  | fuelOut
  | finished (all_dev : List PFloat) (all_test : List (Option PFloat)) (all_steps : List Nat)

/-- The post-loop finalisation (train.py lines 390-420): in a training
run, save a final checkpoint and re-evaluate; in eval-only mode skip
both; then append the current dev/test perplexities and global step to
the three result lists and emit the final prints. -/
def postLoop (o : Oracle) (cfg : TrainCfg) (s : LoopSt) : TrainOutcome × List Event :=
  if cfg.eval_only then
    (.finished (s.all_dev ++ [s.dev_ppl]) (s.all_test ++ [s.test_ppl])
       (s.all_steps ++ [s.global_step]),
     [Event.printBest, Event.printFinal s.global_step, Event.closeWriter, Event.printDone])
  else
    let ev0 : List Event := [Event.saveCkpt cfg.out_dir s.global_step]
    let w1 := { s.w with ckpt := updCkpt s.w.ckpt cfg.out_dir s.global_step }
    match run_internal_eval o cfg.model_dir w1 with
    | .error e => (.pyError e, ev0)
    | .ok (dt, w2, evI) =>
      match run_external_eval o cfg.model_dir cfg.eval_only w2 with
      | .error e => (.pyError e, ev0 ++ evI)
      | .ok (_, w3, evE) =>
        (.finished (s.all_dev ++ [dt.1]) (s.all_test ++ [dt.2])
           (s.all_steps ++ [s.global_step]),
         ev0 ++ evI ++ evE ++ [Event.printBest, Event.printFinal s.global_step,
           Event.closeWriter, Event.printDone])

/-- Embeds `train` (train.py lines 132-420).  `fuel` bounds the number of
while-loop iterations.  Returns the outcome (the three lists
`all_dev_perplexities`, `all_test_perplexities`, `all_steps` on success)
together with the trace of observable side effects. -/
def train (o : Oracle) (h0 : Hparams) (eval_only : Bool) (fuel : Nat) :
    TrainOutcome × List Event :=
  match selectModelCreator h0 with
  | .error msg => (.valueError msg, [])
  | .ok mc =>
    let evA := createModelsEv mc
    if eval_only && (h0.metrics.length != 1) then
      (.valueError ("Expect exactly 1 metric in eval_only mode."), evA)
    else
      let cfg := mkCfg h0 eval_only
      let summary_name := if eval_only then "eval_log" else "train_log"
      let evB : List Event :=
        [ Event.openLogFile h0.out_dir, Event.createSession ("train")
        , Event.createSession ("eval"), Event.createSession ("infer") ]
      let w0 : World := { ctr := 0, ckpt := o.initCkpt, h := h0 }
      let gs0 := w0.ckpt cfg.model_dir
      let evC : List Event :=
        [ Event.loadModel ("train") cfg.model_dir gs0
        , Event.createSummaryWriter (pathJoin h0.out_dir summary_name) ]
      match run_internal_eval o cfg.model_dir w0 with
      | .error e => (.pyError e, evA ++ evB ++ evC)
      | .ok (dt0, w1, evD) =>
        match run_external_eval o cfg.model_dir eval_only w1 with
        | .error e => (.pyError e, evA ++ evB ++ evC ++ evD)
        | .ok (_, w2, evE) =>
          let s0 : LoopSt :=
            { w := w2, global_step := gs0, step_time := 0
            , checkpoint_loss := PFloat.val 0, checkpoint_predict_count := PFloat.val 0
            , checkpoint_total_count := PFloat.val 0, avg_step_time := 0
            , speed := PFloat.val 0, train_ppl := PFloat.val 0
            , dev_ppl := dt0.1, test_ppl := dt0.2
            , all_dev := [dt0.1], all_test := [dt0.2], all_steps := [gs0] }
          let evF : List Event :=
            [ Event.printStartStep gs0
            , Event.initTrainIterator (w2.h.batch_size * w2.h.epoch_step) ]
          match trainLoop o cfg fuel s0 with
          | .err e => (.pyError e, evA ++ evB ++ evC ++ evD ++ evE ++ evF)
          | .fuelOut s ev => (.fuelOut, evA ++ evB ++ evC ++ evD ++ evE ++ evF ++ ev)
          | .done s ev =>
            let p := postLoop o cfg s
            (p.1, evA ++ evB ++ evC ++ evD ++ evE ++ evF ++ ev ++ p.2)
          | .broke s ev =>
            let p := postLoop o cfg s
            (p.1, evA ++ evB ++ evC ++ evD ++ evE ++ evF ++ ev ++ p.2)

/-! ### Preservation lemmas -/

theorem sample_decode_shape (o : Oracle) (gs : Nat) (w w1 : World) (ev : List Event)
    (hok : sample_decode o gs w = .ok (w1, ev)) :
    w1.h = w.h ∧ w1.ckpt = w.ckpt := by
  simp only [sample_decode] at hok
  split at hok
  · exact absurd hok (by simp)
  · split at hok
    · exact absurd hok (by simp)
    · simp only [Except.ok.injEq, Prod.mk.injEq] at hok
      obtain ⟨h1, _⟩ := hok
      subst h1
      exact ⟨rfl, rfl⟩

theorem extEvalMetricStep_h (gs : Nat) (l : String) (sob : Bool)
    (sc : String → PFloat) (m : String) (w : World) :
    ∃ b, ((extEvalMetricStep gs l sob sc m w).1).h = { w.h with best := b } := by
  unfold extEvalMetricStep
  split
  · exact ⟨_, rfl⟩
  · exact ⟨w.h.best, rfl⟩

theorem extEvalMetrics_h (gs : Nat) (l : String) (sob : Bool) (sc : String → PFloat) :
    ∀ (ms : List String) (w : World),
      ∃ b, ((extEvalMetrics gs l sob sc ms w).1).h = { w.h with best := b } := by
  intro ms
  induction ms with
  | nil => intro w; exact ⟨w.h.best, rfl⟩
  | cons m rest ih =>
    intro w
    obtain ⟨b1, hb1⟩ := extEvalMetricStep_h gs l sob sc m w
    obtain ⟨b2, hb2⟩ := ih (extEvalMetricStep gs l sob sc m w).1
    refine ⟨b2, ?_⟩
    simp only [extEvalMetrics]
    rw [hb2, hb1]

theorem external_eval_h (o : Oracle) (gs : Nat) (l : String) (srcs : List String)
    (ib : Nat) (tf : String) (sob : Bool) (w : World) :
    ∃ b, ((external_eval o gs l srcs ib tf sob w).2.1).h = { w.h with best := b } := by
  simp only [external_eval]
  split
  · exact extEvalMetrics_h gs l sob (o.scoresOf w.ctr) w.bump.h.metrics w.bump
  · exact ⟨w.h.best, rfl⟩

theorem run_internal_eval_shape (o : Oracle) (md : String) (w : World)
    (dt : PFloat × Option PFloat) (w' : World) (ev : List Event)
    (hok : run_internal_eval o md w = .ok (dt, w', ev)) :
    w'.h = w.h ∧ w'.ckpt = w.ckpt := by
  simp only [run_internal_eval] at hok
  cases hs : sample_decode o (w.ckpt md) w with
  | error e => simp only [hs] at hok; exact absurd hok (by simp)
  | ok p =>
    obtain ⟨w1, evS⟩ := p
    obtain ⟨hh, hc⟩ := sample_decode_shape o (w.ckpt md) w w1 evS hs
    simp only [hs, internal_eval] at hok
    split at hok
    · simp only [Except.ok.injEq, Prod.mk.injEq] at hok
      obtain ⟨_, h2, _⟩ := hok
      subst h2
      exact ⟨hh, hc⟩
    · simp only [Except.ok.injEq, Prod.mk.injEq] at hok
      obtain ⟨_, h2, _⟩ := hok
      subst h2
      exact ⟨hh, hc⟩

theorem run_external_eval_h (o : Oracle) (md : String) (eo : Bool) (w : World)
    (ds : (String → PFloat) × Option (String → PFloat)) (w' : World) (ev : List Event)
    (hok : run_external_eval o md eo w = .ok (ds, w', ev)) :
    ∃ b, w'.h = { w.h with best := b } := by
  simp only [run_external_eval] at hok
  cases hs : sample_decode o (w.ckpt md) w with
  | error e => simp only [hs] at hok; exact absurd hok (by simp)
  | ok p =>
    obtain ⟨w1, evS⟩ := p
    obtain ⟨hh, hc⟩ := sample_decode_shape o (w.ckpt md) w w1 evS hs
    simp only [hs] at hok
    obtain ⟨b1, hb1⟩ := external_eval_h o (w.ckpt md) ("dev") o.dev_src_data
      w1.h.infer_batch_size (devTgtFile w1.h) (!eo) w1
    split at hok
    · simp only [Except.ok.injEq, Prod.mk.injEq] at hok
      obtain ⟨_, h2, _⟩ := hok
      subst h2
      exact ⟨b1, by rw [hb1, hh]⟩
    · obtain ⟨b2, hb2⟩ := external_eval_h o (w.ckpt md) ("test") o.test_src_data
        ((external_eval o (w.ckpt md) ("dev") o.dev_src_data w1.h.infer_batch_size
          (devTgtFile w1.h) (!eo) w1).2.1).h.infer_batch_size
        (testTgtFile ((external_eval o (w.ckpt md) ("dev") o.dev_src_data
          w1.h.infer_batch_size (devTgtFile w1.h) (!eo) w1).2.1).h) false
        (external_eval o (w.ckpt md) ("dev") o.dev_src_data w1.h.infer_batch_size
          (devTgtFile w1.h) (!eo) w1).2.1
      simp only [Except.ok.injEq, Prod.mk.injEq] at hok
      obtain ⟨_, h2, _⟩ := hok
      subst h2
      refine ⟨b2, ?_⟩
      rw [hb2, hb1, hh]

/-! ### Concrete fixtures used by the witnesses -/

/-- A concrete oracle for instantiating the theorems on executable inputs. -/
def oW : Oracle :=
  { rand := fun _ => 0
  , nmtOut := fun _ => "hallo"
  , attnSum := fun _ => false
  , pplOf := fun _ => PFloat.val 7
  , scoresOf := fun _ _ => PFloat.val 1
  , stepOf := fun _ => .ok { step_loss := PFloat.val 1, step_predict_count := PFloat.val 2
                           , step_word_count := 3, batch_size := 4, elapsed := 1 }
  , initCkpt := fun _ => 0
  , dev_src_data := ["s0", "s1"]
  , dev_tgt_data := ["t0", "t1"]
  , test_src_data := ["u0"] }

/-- Concrete hyperparameters for the witnesses. -/
def hpW : Hparams :=
  { attention := ""
  , attention_architecture := "standard"
  , out_dir := "out"
  , num_train_steps := 0
  , steps_per_stats := 1
  , steps_per_external_eval := 0
  , batch_size := 2
  , epoch_step := 3
  , devPref := "dev"
  , testPref := ""
  , src := "en"
  , tgt := "de"
  , metrics := ["bleu"]
  , best := fun _ => PFloat.val 0
  , bestDir := fun m => "best_" ++ m
  , infer_batch_size := 5 }

/-- Concrete hyperparameters with an unknown attention architecture. -/
def hpBad : Hparams := { hpW with attention := "luong", attention_architecture := "weird" }

/-! ### Claims -/

/-- C1: for every hparams passed to `train`, when `hparams.attention` is
falsy the plain seq2seq model class is selected as model creator for all
three graphs; otherwise architecture "standard" selects the attention
model class, "gnmt"/"gnmt_v2" select the GNMT model class, and any other
value makes `train` raise ValueError before constructing any graph,
session, or iterator (the event trace of the run is empty); when a
creator is selected, the run's trace begins with the construction of the
three graphs, iterators and models from that creator. -/
theorem c1_model_creator (o : Oracle) (h : Hparams) (eo : Bool) (fuel : Nat) :
    (h.attention = "" → selectModelCreator h = .ok .Model)
    ∧ (h.attention ≠ "" → h.attention_architecture = "standard" →
        selectModelCreator h = .ok .AttentionModel)
    ∧ (h.attention ≠ "" →
        (h.attention_architecture = "gnmt" ∨ h.attention_architecture = "gnmt_v2") →
        selectModelCreator h = .ok .GNMTModel)
    ∧ (h.attention ≠ "" → h.attention_architecture ≠ "standard" →
        h.attention_architecture ≠ "gnmt" → h.attention_architecture ≠ "gnmt_v2" →
        train o h eo fuel = (.valueError ("Unknown model architecture"), []))
    ∧ (∀ mc, selectModelCreator h = .ok mc →
        ∃ rest, (train o h eo fuel).2 = createModelsEv mc ++ rest) := by
  refine ⟨?_, ?_, ?_, ?_, ?_⟩
  · intro ha
    unfold selectModelCreator
    rw [if_pos ha]
  · intro ha hb
    unfold selectModelCreator
    rw [if_neg ha, if_pos hb]
  · intro ha hb
    have hs : ¬h.attention_architecture = "standard" := by
      rcases hb with hb | hb <;> rw [hb] <;> decide
    unfold selectModelCreator
    rw [if_neg ha, if_neg hs, if_pos hb]
  · intro ha h1 h2 h3
    have hor : ¬(h.attention_architecture = "gnmt" ∨ h.attention_architecture = "gnmt_v2") := by
      rintro (hh | hh)
      exacts [h2 hh, h3 hh]
    have hsel : selectModelCreator h = .error ("Unknown model architecture") := by
      unfold selectModelCreator
      rw [if_neg ha, if_neg h1, if_neg hor]
    simp only [train, hsel]
  · intro mc hmc
    simp only [train, hmc]
    split
    · exact ⟨[], rfl⟩
    · split
      · exact ⟨_, rfl⟩
      · split
        · exact ⟨_, rfl⟩
        · split <;> exact ⟨_, rfl⟩

/-- Witness for C1: a concrete unknown architecture raises the ValueError
with an empty trace. -/
theorem c1_model_creator_witness :
    train oW hpBad false 1 = (.valueError ("Unknown model architecture"), []) :=
  (c1_model_creator oW hpBad false 1).2.2.2.1 (by decide) (by decide) (by decide) (by decide)

/-- Concrete hyperparameters with two metrics (illegal in eval-only mode). -/
def hpMulti : Hparams := { hpW with metrics := ["bleu", "rouge"] }

/-- C7: with `eval_only=True` and a metric count different from one,
`train` raises ValueError while its trace holds only the graph/iterator/
model constructions — so no session was created and no log file written;
with exactly one metric, the model directory used for loading is
`best_<metric>_dir` (not `out_dir`) and the summary directory is
"eval_log" (not "train_log"). -/
theorem c7_eval_only_checks (o : Oracle) (h : Hparams) (fuel : Nat) (mc : ModelCreator)
    (hsel : selectModelCreator h = .ok mc) :
    (h.metrics.length ≠ 1 →
      train o h true fuel = (.valueError ("Expect exactly 1 metric in eval_only mode."),
        createModelsEv mc)
      ∧ ∀ e ∈ createModelsEv mc,
          (∀ g, e ≠ Event.createSession g) ∧ (∀ d, e ≠ Event.openLogFile d))
    ∧ (h.metrics.length = 1 →
      ∃ rest, (train o h true fuel).2 =
        createModelsEv mc ++
        [ Event.openLogFile h.out_dir, Event.createSession ("train")
        , Event.createSession ("eval"), Event.createSession ("infer")
        , Event.loadModel ("train") (h.bestDir (h.metrics.getD 0 ("")))
            (o.initCkpt (h.bestDir (h.metrics.getD 0 (""))))
        , Event.createSummaryWriter (pathJoin h.out_dir ("eval_log")) ] ++ rest) := by
  constructor
  · intro hm
    constructor
    · simp only [train, hsel]
      rw [if_pos (by simp [hm])]
    · intro e he
      simp only [createModelsEv, List.mem_cons, List.not_mem_nil, or_false] at he
      rcases he with rfl | rfl | rfl | rfl | rfl | rfl | rfl | rfl | rfl <;>
        exact ⟨fun g hg => Event.noConfusion hg, fun d hd => Event.noConfusion hd⟩
  · intro hm
    simp only [train, hsel]
    rw [if_neg (by simp [hm])]
    split
    · exact ⟨_, rfl⟩
    · split
      · exact ⟨_, rfl⟩
      · split <;> exact ⟨_, rfl⟩

/-- Witness for C7: two metrics in eval-only mode raise the ValueError and
leave only the construction events in the trace. -/
theorem c7_eval_only_checks_witness :
    train oW hpMulti true 1
      = (.valueError ("Expect exactly 1 metric in eval_only mode."), createModelsEv .Model) :=
  ((c7_eval_only_checks oW hpMulti 1 .Model (by rfl)).1 (by decide)).1

@[simp] theorem World.bump_h (w : World) : w.bump.h = w.h := rfl

@[simp] theorem World.bump_ckpt (w : World) : w.bump.ckpt = w.ckpt := rfl

@[simp] theorem World.bump_ctr (w : World) : w.bump.ctr = w.ctr + 1 := rfl

/-- C3: `run_internal_eval` returns a pair whose second component is a
test perplexity exactly when `test_prefix` is set and `None` otherwise;
the dev perplexity is computed on the dev files and recorded as a summary
tagged "dev_ppl" at the loaded global step, and likewise the test
perplexity on the test files under "test_ppl". -/
theorem c3_internal_eval (o : Oracle) (md : String) (w : World)
    (dt : PFloat × Option PFloat) (w' : World) (ev : List Event)
    (hok : run_internal_eval o md w = .ok (dt, w', ev)) :
    (w.h.testPref = "" → dt.2 = none)
    ∧ (w.h.testPref ≠ "" → ∃ tp, dt.2 = some tp
        ∧ Event.computePerplexity ("test") tp ∈ ev
        ∧ Event.addSummary ("test_ppl") (w.ckpt md) tp ∈ ev
        ∧ Event.initEvalIterator (testSrcFile w.h) (testTgtFile w.h) ∈ ev)
    ∧ Event.computePerplexity ("dev") dt.1 ∈ ev
    ∧ Event.addSummary ("dev_ppl") (w.ckpt md) dt.1 ∈ ev
    ∧ Event.initEvalIterator (devSrcFile w.h) (devTgtFile w.h) ∈ ev := by
  simp only [run_internal_eval] at hok
  cases hs : sample_decode o (w.ckpt md) w with
  | error e => simp only [hs] at hok; exact absurd hok (by simp)
  | ok p =>
    obtain ⟨w1, evS⟩ := p
    obtain ⟨hh, hc⟩ := sample_decode_shape o (w.ckpt md) w w1 evS hs
    simp only [hs, internal_eval, World.bump_h, World.bump_ctr, hh] at hok
    split at hok
    case isTrue ht =>
      simp only [Except.ok.injEq, Prod.mk.injEq] at hok
      obtain ⟨hdt, hw', hev⟩ := hok
      subst hdt
      subst hev
      refine ⟨fun _ => rfl, fun hne => absurd ht hne, ?_, ?_, ?_⟩
      · exact List.mem_append_right _ (List.mem_cons_of_mem _ (List.mem_cons_self _ _))
      · exact List.mem_append_right _
          (List.mem_cons_of_mem _ (List.mem_cons_of_mem _ (List.mem_cons_self _ _)))
      · exact List.mem_append_right _ (List.mem_cons_self _ _)
    case isFalse ht =>
      simp only [Except.ok.injEq, Prod.mk.injEq] at hok
      obtain ⟨hdt, hw', hev⟩ := hok
      subst hdt
      subst hev
      refine ⟨fun he => absurd he ht, ?_, ?_, ?_, ?_⟩
      · refine fun _ => ⟨_, rfl, ?_, ?_, ?_⟩
        · exact List.mem_append_right _
            (List.mem_cons_of_mem _ (List.mem_cons_self _ _))
        · exact List.mem_append_right _
            (List.mem_cons_of_mem _ (List.mem_cons_of_mem _ (List.mem_cons_self _ _)))
        · exact List.mem_append_right _ (List.mem_cons_self _ _)
      · exact List.mem_append_left _
          (List.mem_append_right _ (List.mem_cons_of_mem _ (List.mem_cons_self _ _)))
      · exact List.mem_append_left _ (List.mem_append_right _
          (List.mem_cons_of_mem _ (List.mem_cons_of_mem _ (List.mem_cons_self _ _))))
      · exact List.mem_append_left _
          (List.mem_append_right _ (List.mem_cons_self _ _))

/-- Concrete starting world for the witnesses. -/
def wW : World := { ctr := 0, ckpt := fun _ => 0, h := hpW }

/-- Result components of a concrete `run_internal_eval` run. -/
def c3resDt : PFloat × Option PFloat :=
  match run_internal_eval oW ("out") wW with
  | .ok (dt, _, _) => dt
  | .error _ => (PFloat.val 0, none)

/-- World component of a concrete `run_internal_eval` run. -/
def c3resW : World :=
  match run_internal_eval oW ("out") wW with
  | .ok (_, w', _) => w'
  | .error _ => wW

/-- Event trace of a concrete `run_internal_eval` run. -/
def c3resEv : List Event :=
  match run_internal_eval oW ("out") wW with
  | .ok (_, _, ev) => ev
  | .error _ => []

/-- Witness for C3 on a concrete run without a test set. -/
theorem c3_internal_eval_witness :
    Event.addSummary ("dev_ppl") 0 c3resDt.1 ∈ c3resEv ∧ c3resDt.2 = none := by
  have h := c3_internal_eval oW ("out") wW c3resDt c3resW c3resEv (by rfl)
  exact ⟨h.2.2.2.1, h.1 (by rfl)⟩

/-- Recogniser for the sample-decode index print. -/
def isDecodeIdEv : Event → Bool
  | .printDecodeId _ => true
  | _ => false

/-- Recogniser for score-computation events (external scoring and
perplexity computation). -/
def isScoreEv : Event → Bool
  | .decodeAndEvaluate _ _ _ _ => true
  | .computePerplexity _ _ => true
  | _ => false

theorem sample_decode_ev (o : Oracle) (gs : Nat) (w w1 : World) (evS : List Event)
    (hlen : 0 < o.dev_src_data.length)
    (hok : sample_decode o gs w = .ok (w1, evS)) :
    ∃ i, i = o.rand w.ctr % o.dev_src_data.length
      ∧ i ≤ o.dev_src_data.length - 1
      ∧ Event.printDecodeId i ∈ evS
      ∧ Event.printOut ("    src: " ++ o.dev_src_data.getD i ("")) ∈ evS
      ∧ Event.printOut ("    ref: " ++ o.dev_tgt_data.getD i ("")) ∈ evS
      ∧ (∃ tr, Event.printOut ("    nmt: " ++ tr) ∈ evS)
      ∧ (∀ e ∈ evS, isScoreEv e = false)
      ∧ evS.countP isDecodeIdEv = 1 := by
  have hmod : pyRandint (o.rand w.ctr) 0 (o.dev_src_data.length - 1)
      = o.rand w.ctr % o.dev_src_data.length := by
    unfold pyRandint
    rw [Nat.sub_zero, Nat.sub_add_cancel hlen, Nat.zero_add]
  have hle : o.rand w.ctr % o.dev_src_data.length ≤ o.dev_src_data.length - 1 :=
    Nat.le_pred_of_lt (Nat.mod_lt _ hlen)
  simp only [sample_decode] at hok
  split at hok
  · exact absurd hok (by simp)
  · split at hok
    · exact absurd hok (by simp)
    · simp only [Except.ok.injEq, Prod.mk.injEq] at hok
      obtain ⟨hw1, hev⟩ := hok
      subst hev
      refine ⟨pyRandint (o.rand w.ctr) 0 (o.dev_src_data.length - 1), hmod,
        by rw [hmod]; exact hle, ?_⟩
      split
      · refine ⟨List.mem_append_left _ (List.mem_cons_self _ _),
          List.mem_append_left _ (by simp),
          List.mem_append_left _ (by simp),
          ⟨o.nmtOut w.bump.ctr, List.mem_append_left _ (by simp)⟩, ?_, ?_⟩
        · intro e he
          simp only [List.mem_append, List.mem_cons, List.not_mem_nil, or_false] at he
          rcases he with (rfl | rfl | rfl | rfl | rfl | rfl) | rfl <;> rfl
        · simp [List.countP_append, List.countP_cons, isDecodeIdEv]
      · refine ⟨List.mem_cons_self _ _, by simp, by simp,
          ⟨o.nmtOut w.bump.ctr, by simp⟩, ?_, ?_⟩
        · intro e he
          simp only [List.mem_cons, List.not_mem_nil, or_false] at he
          rcases he with rfl | rfl | rfl | rfl | rfl | rfl <;> rfl
        · simp [List.countP_cons, isDecodeIdEv]

theorem extEvalMetrics_no_decode (gs : Nat) (l : String) (sob : Bool)
    (sc : String → PFloat) :
    ∀ (ms : List String) (w : World),
      ((extEvalMetrics gs l sob sc ms w).2).countP isDecodeIdEv = 0 := by
  intro ms
  induction ms with
  | nil => intro w; rfl
  | cons m rest ih =>
    intro w
    simp only [extEvalMetrics, List.countP_append, ih]
    unfold extEvalMetricStep
    split <;> simp [List.countP_cons, List.countP_append, isDecodeIdEv]

theorem external_eval_no_decode (o : Oracle) (gs : Nat) (l : String)
    (srcs : List String) (ib : Nat) (tf : String) (sob : Bool) (w : World) :
    ((external_eval o gs l srcs ib tf sob w).2.2).countP isDecodeIdEv = 0 := by
  simp only [external_eval]
  split <;>
    simp [List.countP_append, List.countP_cons, isDecodeIdEv, extEvalMetrics_no_decode]

theorem external_eval_has_score (o : Oracle) (gs : Nat) (l : String)
    (srcs : List String) (ib : Nat) (tf : String) (sob : Bool) (w : World) :
    Event.decodeAndEvaluate l (decide (0 < gs)) (pathJoin w.h.out_dir ("output_" ++ l)) tf
      ∈ (external_eval o gs l srcs ib tf sob w).2.2 := by
  simp only [external_eval]
  split <;> simp

/-- C4: every external evaluation, and likewise every internal
evaluation, first decodes exactly one sample sentence — its index drawn
via `random.randint` over `[0, len(dev_src_data)-1]`, i.e. equal to the
drawn entropy mod `len(dev_src_data)` — printing the source, reference
and decoded translation, and only afterwards computes its scores
(resp. perplexities): the trace splits as the model load, then the
sample-decode events (free of score computations), then a tail containing
the score computation; the whole trace holds exactly one sampled index. -/
theorem c4_sample_before_scores (o : Oracle) (md : String) (w : World)
    (hlen : 0 < o.dev_src_data.length) :
    (∀ eo ds w' ev, run_external_eval o md eo w = .ok (ds, w', ev) →
      ∃ i evS rest,
        ev = Event.loadModel ("infer") md (w.ckpt md) :: (evS ++ rest)
        ∧ i = o.rand w.ctr % o.dev_src_data.length
        ∧ i ≤ o.dev_src_data.length - 1
        ∧ Event.printDecodeId i ∈ evS
        ∧ Event.printOut ("    src: " ++ o.dev_src_data.getD i ("")) ∈ evS
        ∧ Event.printOut ("    ref: " ++ o.dev_tgt_data.getD i ("")) ∈ evS
        ∧ (∃ tr, Event.printOut ("    nmt: " ++ tr) ∈ evS)
        ∧ (∀ e ∈ evS, isScoreEv e = false)
        ∧ ev.countP isDecodeIdEv = 1
        ∧ (∃ lb dc op rf, Event.decodeAndEvaluate lb dc op rf ∈ rest))
    ∧ (∀ dt w' ev, run_internal_eval o md w = .ok (dt, w', ev) →
      ∃ i evS rest,
        ev = Event.loadModel ("infer") md (w.ckpt md) :: (evS ++ rest)
        ∧ i = o.rand w.ctr % o.dev_src_data.length
        ∧ i ≤ o.dev_src_data.length - 1
        ∧ Event.printDecodeId i ∈ evS
        ∧ Event.printOut ("    src: " ++ o.dev_src_data.getD i ("")) ∈ evS
        ∧ Event.printOut ("    ref: " ++ o.dev_tgt_data.getD i ("")) ∈ evS
        ∧ (∃ tr, Event.printOut ("    nmt: " ++ tr) ∈ evS)
        ∧ (∀ e ∈ evS, isScoreEv e = false)
        ∧ ev.countP isDecodeIdEv = 1
        ∧ (∃ lb pp, Event.computePerplexity lb pp ∈ rest)) := by
  constructor
  · intro eo ds w' ev hok
    simp only [run_external_eval] at hok
    cases hs : sample_decode o (w.ckpt md) w with
    | error e => simp only [hs] at hok; exact absurd hok (by simp)
    | ok p =>
      obtain ⟨w1, evS⟩ := p
      obtain ⟨i, hi1, hi2, hm1, hm2, hm3, hm4, hnos, hcnt⟩ :=
        sample_decode_ev o (w.ckpt md) w w1 evS hlen hs
      simp only [hs] at hok
      have hnd1 := external_eval_no_decode o (w.ckpt md) ("dev") o.dev_src_data
        w1.h.infer_batch_size (devTgtFile w1.h) (!eo) w1
      have hsc1 := external_eval_has_score o (w.ckpt md) ("dev") o.dev_src_data
        w1.h.infer_batch_size (devTgtFile w1.h) (!eo) w1
      rcases hpd : external_eval o (w.ckpt md) ("dev") o.dev_src_data
          w1.h.infer_batch_size (devTgtFile w1.h) (!eo) w1 with ⟨ds1, w2, evD⟩
      rw [hpd] at hok hnd1 hsc1
      split at hok
      case isTrue ht =>
        simp only [Except.ok.injEq, Prod.mk.injEq] at hok
        obtain ⟨hds, hw', hev⟩ := hok
        subst hev
        refine ⟨i, evS, evD, rfl, hi1, hi2, hm1, hm2, hm3, hm4, hnos, ?_, ?_⟩
        · simp only [List.countP_append, List.countP_cons, List.countP_nil] at hnd1 ⊢
          simp [isDecodeIdEv, hcnt, hnd1]
        · exact ⟨_, _, _, _, hsc1⟩
      case isFalse ht =>
        have hnd2 := external_eval_no_decode o (w.ckpt md) ("test") o.test_src_data
          w2.h.infer_batch_size (testTgtFile w2.h) false w2
        rcases hpt : external_eval o (w.ckpt md) ("test") o.test_src_data
            w2.h.infer_batch_size (testTgtFile w2.h) false w2 with ⟨ds2, w3, evT⟩
        rw [hpt] at hok hnd2
        simp only [Except.ok.injEq, Prod.mk.injEq] at hok
        obtain ⟨hds, hw', hev⟩ := hok
        subst hev
        refine ⟨i, evS, evD ++ evT, ?_, hi1, hi2, hm1, hm2, hm3, hm4, hnos, ?_, ?_⟩
        · simp [List.append_assoc]
        · simp only [List.countP_append, List.countP_cons, List.countP_nil] at hnd1 hnd2 ⊢
          simp [isDecodeIdEv, hcnt, hnd1, hnd2]
        · exact ⟨_, _, _, _, List.mem_append_left _ hsc1⟩
  · intro dt w' ev hok
    simp only [run_internal_eval] at hok
    cases hs : sample_decode o (w.ckpt md) w with
    | error e => simp only [hs] at hok; exact absurd hok (by simp)
    | ok p =>
      obtain ⟨w1, evS⟩ := p
      obtain ⟨i, hi1, hi2, hm1, hm2, hm3, hm4, hnos, hcnt⟩ :=
        sample_decode_ev o (w.ckpt md) w w1 evS hlen hs
      simp only [hs, internal_eval] at hok
      split at hok
      case isTrue ht =>
        simp only [Except.ok.injEq, Prod.mk.injEq] at hok
        obtain ⟨hdt, hw', hev⟩ := hok
        subst hev
        refine ⟨i, evS,
          [ Event.loadModel ("eval") md (w.ckpt md)
          , Event.initEvalIterator (devSrcFile w1.h) (devTgtFile w1.h)
          , Event.computePerplexity ("dev") (o.pplOf w1.ctr)
          , Event.addSummary ("dev" ++ "_ppl") (w.ckpt md) (o.pplOf w1.ctr) ],
          ?_, hi1, hi2, hm1, hm2, hm3, hm4, hnos, ?_, ?_⟩
        · simp [List.append_assoc]
        · simp [List.countP_append, List.countP_cons, isDecodeIdEv, hcnt]
        · exact ⟨("dev"), o.pplOf w1.ctr, by simp⟩
      case isFalse ht =>
        simp only [Except.ok.injEq, Prod.mk.injEq] at hok
        obtain ⟨hdt, hw', hev⟩ := hok
        subst hev
        refine ⟨i, evS,
          [ Event.loadModel ("eval") md (w.ckpt md)
          , Event.initEvalIterator (devSrcFile w1.h) (devTgtFile w1.h)
          , Event.computePerplexity ("dev") (o.pplOf w1.ctr)
          , Event.addSummary ("dev" ++ "_ppl") (w.ckpt md) (o.pplOf w1.ctr)
          , Event.initEvalIterator (testSrcFile w1.bump.h) (testTgtFile w1.bump.h)
          , Event.computePerplexity ("test") (o.pplOf w1.bump.ctr)
          , Event.addSummary ("test" ++ "_ppl") (w.ckpt md) (o.pplOf w1.bump.ctr) ],
          ?_, hi1, hi2, hm1, hm2, hm3, hm4, hnos, ?_, ?_⟩
        · simp [List.append_assoc]
        · simp [List.countP_append, List.countP_cons, isDecodeIdEv, hcnt]
        · exact ⟨("dev"), o.pplOf w1.ctr, by simp⟩

/-- Scores component of a concrete `run_external_eval` run. -/
def c4resDs : (String → PFloat) × Option (String → PFloat) :=
  match run_external_eval oW ("out") false wW with
  | .ok (ds, _, _) => ds
  | .error _ => (fun _ => PFloat.val 0, none)

/-- World component of a concrete `run_external_eval` run. -/
def c4resW : World :=
  match run_external_eval oW ("out") false wW with
  | .ok (_, w', _) => w'
  | .error _ => wW

/-- Event trace of a concrete `run_external_eval` run. -/
def c4resEv : List Event :=
  match run_external_eval oW ("out") false wW with
  | .ok (_, _, ev) => ev
  | .error _ => []

/-- Witness for C4 on a concrete external evaluation over two dev
sentences: exactly one sample index is printed. -/
theorem c4_sample_before_scores_witness :
    c4resEv.countP isDecodeIdEv = 1 ∧ Event.printDecodeId 0 ∈ c4resEv := by
  obtain ⟨i, evS, rest, hshape, hi, hle, hmem, _, _, _, _, hcnt, _⟩ :=
    (c4_sample_before_scores oW ("out") wW (by decide)).1 false c4resDs c4resW c4resEv
      (by rfl)
  refine ⟨hcnt, ?_⟩
  have hi0 : i = 0 := hi
  subst hi0
  rw [hshape]
  exact List.mem_cons_of_mem _ (List.mem_append_left _ hmem)

theorem extEvalMetricStep_best_other (gs : Nat) (l : String) (sob : Bool)
    (sc : String → PFloat) (m1 : String) (w : World) (m : String) (hne : m ≠ m1) :
    ((extEvalMetricStep gs l sob sc m1 w).1).h.best m = w.h.best m := by
  unfold extEvalMetricStep
  split
  · simp [hne]
  · rfl

theorem extEvalMetricStep_bestDir (gs : Nat) (l : String) (sob : Bool)
    (sc : String → PFloat) (m1 : String) (w : World) :
    ((extEvalMetricStep gs l sob sc m1 w).1).h.bestDir = w.h.bestDir := by
  obtain ⟨b, hb⟩ := extEvalMetricStep_h gs l sob sc m1 w
  rw [hb]

theorem extEvalMetricStep_cases (gs : Nat) (l : String) (sob : Bool)
    (sc : String → PFloat) (m1 : String) (w : World) :
    (¬(sob = true ∧ (sc m1).pgt (w.h.best m1) = true)
      ∧ (extEvalMetricStep gs l sob sc m1 w).1 = w
      ∧ (extEvalMetricStep gs l sob sc m1 w).2
          = [.addSummary (l ++ "_" ++ m1) gs (sc m1)])
    ∨ (sob = true ∧ (sc m1).pgt (w.h.best m1) = true
      ∧ ((extEvalMetricStep gs l sob sc m1 w).1).h.best m1 = sc m1
      ∧ (extEvalMetricStep gs l sob sc m1 w).2
          = [.addSummary (l ++ "_" ++ m1) gs (sc m1),
             .saveCkpt (w.h.bestDir m1) gs]) := by
  unfold extEvalMetricStep
  split
  case isTrue hc =>
    rw [Bool.and_eq_true] at hc
    right
    exact ⟨hc.1, hc.2, by simp, rfl⟩
  case isFalse hc =>
    rw [Bool.and_eq_true] at hc
    left
    exact ⟨hc, rfl, rfl⟩

theorem extEvalMetrics_best_notin (gs : Nat) (l : String) (sob : Bool)
    (sc : String → PFloat) :
    ∀ (ms : List String) (w : World) (m : String), m ∉ ms →
      ((extEvalMetrics gs l sob sc ms w).1).h.best m = w.h.best m := by
  intro ms
  induction ms with
  | nil => intro w m _; rfl
  | cons m1 rest ih =>
    intro w m hm
    simp only [List.mem_cons, not_or] at hm
    simp only [extEvalMetrics]
    rw [ih _ m hm.2, extEvalMetricStep_best_other gs l sob sc m1 w m hm.1]

theorem extEvalMetrics_save_src (gs : Nat) (l : String) (sob : Bool)
    (sc : String → PFloat) :
    ∀ (ms : List String) (w : World) (d : String) (g : Nat),
      Event.saveCkpt d g ∈ (extEvalMetrics gs l sob sc ms w).2 →
      (∃ m2 ∈ ms, d = w.h.bestDir m2) ∧ g = gs := by
  intro ms
  induction ms with
  | nil => intro w d g hmem; exact absurd hmem (by simp [extEvalMetrics])
  | cons m1 rest ih =>
    intro w d g hmem
    simp only [extEvalMetrics, List.mem_append] at hmem
    rcases hmem with hmem | hmem
    · rcases extEvalMetricStep_cases gs l sob sc m1 w with ⟨_, _, he⟩ | ⟨_, _, _, he⟩ <;>
        rw [he] at hmem <;> simp only [List.mem_cons, List.not_mem_nil, or_false] at hmem
      · rcases hmem with hmem
        exact absurd hmem (by simp)
      · rcases hmem with hmem | hmem
        · exact absurd hmem (by simp)
        · obtain ⟨hd, hg⟩ := Event.saveCkpt.inj hmem
          exact ⟨⟨m1, List.mem_cons_self _ _, hd⟩, hg⟩
    · obtain ⟨⟨m2, hm2, hd⟩, hg⟩ := ih _ d g hmem
      rw [extEvalMetricStep_bestDir] at hd
      exact ⟨⟨m2, List.mem_cons_of_mem _ hm2, hd⟩, hg⟩

theorem extEvalMetrics_main (gs : Nat) (l : String) (sob : Bool) (sc : String → PFloat) :
    ∀ (ms : List String) (w : World), ms.Nodup →
      (∀ m1 ∈ ms, ∀ m2 ∈ ms, w.h.bestDir m1 = w.h.bestDir m2 → m1 = m2) →
      ∀ m ∈ ms,
        (((extEvalMetrics gs l sob sc ms w).1).h.best m = w.h.best m
          ∨ (sob = true ∧ (sc m).pgt (w.h.best m) = true
             ∧ ((extEvalMetrics gs l sob sc ms w).1).h.best m = sc m
             ∧ Event.saveCkpt (w.h.bestDir m) gs ∈ (extEvalMetrics gs l sob sc ms w).2))
        ∧ (Event.saveCkpt (w.h.bestDir m) gs ∈ (extEvalMetrics gs l sob sc ms w).2 →
            sob = true ∧ (sc m).pgt (w.h.best m) = true
            ∧ ((extEvalMetrics gs l sob sc ms w).1).h.best m = sc m) := by
  intro ms
  induction ms with
  | nil => intro w _ _ m hm; exact absurd hm (List.not_mem_nil m)
  | cons m1 rest ih =>
    intro w hnd hinj m hm
    obtain ⟨hm1nr, hndr⟩ := List.nodup_cons.mp hnd
    rcases List.mem_cons.mp hm with rfl | hmr
    · rcases extEvalMetricStep_cases gs l sob sc m w with ⟨hcond, hw1, he⟩ |
        ⟨hsob, hpgt, hbest, he⟩
      · constructor
        · left
          simp only [extEvalMetrics]
          rw [hw1]
          exact extEvalMetrics_best_notin gs l sob sc rest w m hm1nr
        · intro hvs
          simp only [extEvalMetrics, List.mem_append] at hvs
          rcases hvs with hvs | hvs
          · rw [he] at hvs
            simp only [List.mem_cons, List.not_mem_nil, or_false] at hvs
            exact absurd hvs (by simp)
          · rw [hw1] at hvs
            obtain ⟨⟨m2, hm2, hd⟩, _⟩ := extEvalMetrics_save_src gs l sob sc rest w _ _ hvs
            have hm12 : m = m2 :=
              hinj m (List.mem_cons_self _ _) m2 (List.mem_cons_of_mem _ hm2) hd
            exact absurd (hm12 ▸ hm2) hm1nr
      · have hb' : ((extEvalMetrics gs l sob sc (m :: rest) w).1).h.best m = sc m := by
          simp only [extEvalMetrics]
          rw [extEvalMetrics_best_notin gs l sob sc rest _ m hm1nr, hbest]
        have hmem : Event.saveCkpt (w.h.bestDir m) gs
            ∈ (extEvalMetrics gs l sob sc (m :: rest) w).2 := by
          simp only [extEvalMetrics, List.mem_append]
          left
          rw [he]
          simp
        exact ⟨Or.inr ⟨hsob, hpgt, hb', hmem⟩, fun _ => ⟨hsob, hpgt, hb'⟩⟩
    · have hne : m ≠ m1 := fun hh => hm1nr (hh ▸ hmr)
      have hdir1 := extEvalMetricStep_bestDir gs l sob sc m1 w
      have hbm := extEvalMetricStep_best_other gs l sob sc m1 w m hne
      have hinj' : ∀ a ∈ rest, ∀ b ∈ rest,
          ((extEvalMetricStep gs l sob sc m1 w).1).h.bestDir a
            = ((extEvalMetricStep gs l sob sc m1 w).1).h.bestDir b → a = b := by
        intro a ha b hb hab
        rw [hdir1] at hab
        exact hinj a (List.mem_cons_of_mem _ ha) b (List.mem_cons_of_mem _ hb) hab
      obtain ⟨ih1, ih2⟩ := ih ((extEvalMetricStep gs l sob sc m1 w).1) hndr hinj' m hmr
      constructor
      · rcases ih1 with h1 | ⟨ha, hb, hc, hd⟩
        · left
          simp only [extEvalMetrics]
          rw [h1, hbm]
        · right
          refine ⟨ha, ?_, ?_, ?_⟩
          · rwa [hbm] at hb
          · simp only [extEvalMetrics]
            exact hc
          · simp only [extEvalMetrics, List.mem_append]
            right
            rw [hdir1] at hd
            exact hd
      · intro hvs
        simp only [extEvalMetrics, List.mem_append] at hvs
        rcases hvs with hvs | hvs
        · rcases extEvalMetricStep_cases gs l sob sc m1 w with ⟨_, _, he⟩ |
            ⟨_, _, _, he⟩ <;>
            rw [he] at hvs <;>
            simp only [List.mem_cons, List.not_mem_nil, or_false] at hvs
          · exact absurd hvs (by simp)
          · rcases hvs with hvs | hvs
            · exact absurd hvs (by simp)
            · obtain ⟨hd, _⟩ := Event.saveCkpt.inj hvs
              exact absurd (hinj m hm m1 (List.mem_cons_self _ _) hd) hne
        · have hres := ih2 (by rw [hdir1]; exact hvs)
          refine ⟨hres.1, ?_, ?_⟩
          · rw [hbm] at hres
            exact hres.2.1
          · simp only [extEvalMetrics]
            exact hres.2.2

/-- C6: in `_external_eval`, each stored `best_<metric>` value either
stays unchanged or strictly increases; it is updated only when
`save_on_best` holds, `global_step > 0`, and the newly computed score
strictly exceeds the stored value — and exactly when it is updated, a
checkpoint is saved under `best_<metric>_dir`; metrics not in the list
are never touched.  (Stated under distinct metrics with distinct best
directories, as in any real configuration.) -/
theorem c6_best_monotone (o : Oracle) (gs : Nat) (l : String) (srcs : List String)
    (ib : Nat) (tf : String) (sob : Bool) (w : World) (sc : String → PFloat)
    (w' : World) (ev : List Event)
    (hnd : w.h.metrics.Nodup)
    (hinj : ∀ m1 ∈ w.h.metrics, ∀ m2 ∈ w.h.metrics,
      w.h.bestDir m1 = w.h.bestDir m2 → m1 = m2)
    (heq : external_eval o gs l srcs ib tf sob w = (sc, w', ev)) :
    (∀ m, w'.h.best m = w.h.best m ∨ (w'.h.best m).pgt (w.h.best m) = true)
    ∧ (∀ m ∈ w.h.metrics,
        (w'.h.best m ≠ w.h.best m →
          sob = true ∧ 0 < gs ∧ (sc m).pgt (w.h.best m) = true ∧ w'.h.best m = sc m
          ∧ Event.saveCkpt (w.h.bestDir m) gs ∈ ev)
        ∧ (Event.saveCkpt (w.h.bestDir m) gs ∈ ev →
            sob = true ∧ 0 < gs ∧ (sc m).pgt (w.h.best m) = true ∧ w'.h.best m = sc m))
    ∧ (∀ m, m ∉ w.h.metrics → w'.h.best m = w.h.best m) := by
  rcases Nat.eq_zero_or_pos gs with hgs | hgs
  · subst hgs
    have hdec0 : decide (0 < 0) = false := rfl
    simp only [external_eval, hdec0, Bool.false_eq_true, if_false,
      List.nil_append, Prod.mk.injEq] at heq
    obtain ⟨hsc, hw', hev⟩ := heq
    subst hsc
    subst hw'
    subst hev
    refine ⟨fun m => Or.inl rfl, fun m hm => ⟨fun hneq => absurd rfl hneq, fun hvs => ?_⟩,
      fun m _ => rfl⟩
    exact absurd hvs (by simp)
  · have hdec : decide (0 < gs) = true := decide_eq_true hgs
    simp only [external_eval, hdec, if_true, Prod.mk.injEq] at heq
    obtain ⟨hsc, hw', hev⟩ := heq
    subst hsc
    subst hw'
    subst hev
    have hmain := extEvalMetrics_main gs l sob (o.scoresOf w.ctr) w.bump.h.metrics
      w.bump hnd hinj
    refine ⟨?_, ?_, ?_⟩
    · intro m
      by_cases hm : m ∈ w.h.metrics
      · obtain ⟨d1, _⟩ := hmain m hm
        rcases d1 with h1 | ⟨_, hb, hc, _⟩
        · exact Or.inl h1
        · right
          rw [hc]
          exact hb
      · exact Or.inl (extEvalMetrics_best_notin gs l sob (o.scoresOf w.ctr)
          w.bump.h.metrics w.bump m hm)
    · intro m hm
      obtain ⟨d1, d2⟩ := hmain m hm
      constructor
      · intro hneq
        rcases d1 with h1 | ⟨ha, hb, hc, hd⟩
        · exact absurd h1 hneq
        · exact ⟨ha, hgs, hb, hc,
            List.mem_append_left _ (List.mem_append_right _ hd)⟩
      · intro hvs
        have hvs' : Event.saveCkpt (w.h.bestDir m) gs
            ∈ (extEvalMetrics gs l sob (o.scoresOf w.ctr) w.bump.h.metrics w.bump).2 := by
          simp only [List.mem_append, List.mem_cons, List.not_mem_nil, or_false] at hvs
          rcases hvs with ((hvs | hvs) | hvs) | hvs
          · rcases hvs with hvs
            exact absurd hvs (by simp)
          · exact absurd hvs (by simp)
          · exact hvs
          · exact absurd hvs (by simp)
        obtain ⟨ha, hb, hc⟩ := d2 hvs'
        exact ⟨ha, hgs, hb, hc⟩
    · intro m hm
      exact extEvalMetrics_best_notin gs l sob (o.scoresOf w.ctr)
        w.bump.h.metrics w.bump m hm

/-- Result of a concrete `external_eval` with a strictly improving score. -/
def c6res : (String → PFloat) × World × List Event :=
  external_eval oW 5 ("dev") ["s0", "s1"] 1 ("dev.de") true wW

/-- Witness for C6: the concrete score 1 beats the stored best 0, so the
best value is updated and a checkpoint saved under the best directory. -/
theorem c6_best_monotone_witness :
    c6res.2.1.h.best ("bleu") = PFloat.val 1
      ∧ Event.saveCkpt ("best_bleu") 5 ∈ c6res.2.2 := by
  have h := (c6_best_monotone oW 5 ("dev") ["s0", "s1"] 1 ("dev.de") true wW
    c6res.1 c6res.2.1 c6res.2.2 (by decide) (by decide) rfl).2.1 ("bleu") (by decide)
  obtain ⟨h1, -⟩ := h
  obtain ⟨-, -, -, hval, hmem⟩ := h1 (by decide)
  exact ⟨by rw [hval]; rfl, hmem⟩

theorem trainLoop_eval_only (o : Oracle) (cfg : TrainCfg) (heo : cfg.eval_only = true) :
    ∀ (fuel : Nat) (s : LoopSt), trainLoop o cfg fuel s = .done s [] := by
  intro fuel s
  cases fuel <;> simp [trainLoop, heo]

theorem trainLoop_reached (o : Oracle) (cfg : TrainCfg) :
    ∀ (fuel : Nat) (s : LoopSt), cfg.num_train_steps ≤ s.global_step →
      trainLoop o cfg fuel s = .done s [] := by
  intro fuel s hge
  cases fuel <;> simp [trainLoop, Nat.not_lt.mpr hge]

/-- C5: the loop body never executes in eval-only mode (the loop returns
its state unchanged with no events); the loop exits as soon as
`global_step` reaches `num_train_steps`; and a successful step landing on
a statistics boundary whose computed training perplexity is NaN makes the
iteration `break` out of the loop. -/
theorem c5_loop_control (o : Oracle) (cfg : TrainCfg) :
    (cfg.eval_only = true → ∀ (fuel : Nat) (s : LoopSt), trainLoop o cfg fuel s = .done s [])
    ∧ (∀ (fuel : Nat) (s : LoopSt), cfg.num_train_steps ≤ s.global_step →
        trainLoop o cfg fuel s = .done s [])
    ∧ (∀ (s : LoopSt) (r : StepRes) (x spd : PFloat),
        o.stepOf s.w.ctr = .ok r →
        cfg.steps_per_stats ≠ 0 →
        (s.global_step + 1) % cfg.steps_per_stats = 0 →
        (s.checkpoint_loss.padd (r.step_loss.pmul (PFloat.val (r.batch_size : ℚ)))).pdiv
            (s.checkpoint_predict_count.padd r.step_predict_count) = some x →
        (s.checkpoint_total_count.padd (PFloat.val (r.step_word_count : ℚ))).pdiv
            (PFloat.val (1000 * (s.step_time + r.elapsed))) = some spd →
        (PFloat.safeExp x).isNaN = true →
        ∃ s1 ev, loopIter o cfg s = .brk s1 ev) := by
  refine ⟨trainLoop_eval_only o cfg, trainLoop_reached o cfg, ?_⟩
  intro s r x spd hstep hsps hmod hdiv1 hdiv2 hnan
  simp only [loopIter, hstep]
  rw [if_neg hsps, if_pos hmod, hdiv1, hdiv2]
  simp only [hnan, if_true]
  exact ⟨_, _, rfl⟩

/-- The three result lists stay in lockstep. -/
def lensOk (s : LoopSt) : Prop :=
  s.all_dev.length = s.all_test.length ∧ s.all_test.length = s.all_steps.length

theorem afterExt_shape (o : Oracle) (cfg : TrainCfg) (s : LoopSt) (ev : List Event) :
    (∃ e, afterExt o cfg s ev = .err e)
    ∨ ∃ s1 tail, afterExt o cfg s ev = .cont s1 (ev ++ tail)
        ∧ s1.w.h.epoch_step = s.w.h.epoch_step
        ∧ s1.global_step = s.global_step
        ∧ s1.all_dev = s.all_dev ∧ s1.all_test = s.all_test ∧ s1.all_steps = s.all_steps
        ∧ (s.global_step % cfg.steps_per_ext = 0 →
            Event.saveCkpt cfg.out_dir s.global_step ∈ tail) := by
  unfold afterExt
  split
  case isTrue hdvd =>
    cases hre : run_external_eval o cfg.model_dir cfg.eval_only
        { s.w with ckpt := updCkpt s.w.ckpt cfg.out_dir s.global_step } with
    | error e => left; exact ⟨e, by simp [hre]⟩
    | ok p =>
      obtain ⟨sc1, w2, evE⟩ := p
      obtain ⟨b, hb⟩ := run_external_eval_h _ _ _ _ _ _ _ hre
      right
      refine ⟨{ s with w := w2 }, [Event.saveCkpt cfg.out_dir s.global_step] ++ evE,
        by simp [hre, List.append_assoc], ?_, rfl, rfl, rfl, rfl, fun _ => by simp⟩
      show w2.h.epoch_step = s.w.h.epoch_step
      rw [hb]
  case isFalse hdvd =>
    right
    exact ⟨s, [], by simp, rfl, rfl, rfl, rfl, rfl, fun hd => absurd hd hdvd⟩

theorem afterStats_shape (o : Oracle) (cfg : TrainCfg) (s : LoopSt) (ev : List Event) :
    (∃ e, afterStats o cfg s ev = .err e)
    ∨ ∃ s1 tail, afterStats o cfg s ev = .cont s1 (ev ++ tail)
        ∧ s1.w.h.epoch_step = s.w.h.epoch_step
        ∧ s1.global_step = s.global_step
        ∧ (lensOk s → lensOk s1)
        ∧ (s.global_step % cfg.steps_per_eval = 0 →
            Event.saveCkpt cfg.out_dir s.global_step ∈ tail)
        ∧ (s.global_step % cfg.steps_per_ext = 0 →
            Event.saveCkpt cfg.out_dir s.global_step ∈ tail) := by
  unfold afterStats
  split
  case isTrue hdvd =>
    cases hri : run_internal_eval o cfg.model_dir
        { s.w with ckpt := updCkpt s.w.ckpt cfg.out_dir s.global_step } with
    | error e => left; exact ⟨e, by simp [hri]⟩
    | ok p =>
      obtain ⟨dt, w2, evI⟩ := p
      obtain ⟨hh, hck⟩ := run_internal_eval_shape _ _ _ _ _ _ hri
      rcases afterExt_shape o cfg
          { s with w := w2, dev_ppl := dt.1, test_ppl := dt.2
                 , all_dev := s.all_dev ++ [dt.1], all_test := s.all_test ++ [dt.2]
                 , all_steps := s.all_steps ++ [s.global_step] }
          ((ev ++
            [ Event.printOut ("# Save eval, global step " ++ toString s.global_step)
            , Event.addSummary ("train_ppl") s.global_step s.train_ppl
            , Event.saveCkpt cfg.out_dir s.global_step ]) ++ evI) with
        hE | ⟨s1, tail2, hcont, hep, hgs, had, hat, has, hsv⟩
      · obtain ⟨e, he⟩ := hE
        left
        refine ⟨e, ?_⟩
        simp only [hri]
        exact he
      · right
        refine ⟨s1,
          [ Event.printOut ("# Save eval, global step " ++ toString s.global_step)
          , Event.addSummary ("train_ppl") s.global_step s.train_ppl
          , Event.saveCkpt cfg.out_dir s.global_step ] ++ evI ++ tail2,
          ?_, ?_, ?_, ?_, ?_, ?_⟩
        · simp only [hri]
          rw [hcont]
          simp [List.append_assoc]
        · rw [hep]
          show w2.h.epoch_step = s.w.h.epoch_step
          rw [hh]
        · rw [hgs]
        · intro hl
          constructor
          · rw [had, hat]
            show (s.all_dev ++ [dt.1]).length = (s.all_test ++ [dt.2]).length
            simp [hl.1]
          · rw [hat, has]
            show (s.all_test ++ [dt.2]).length = (s.all_steps ++ [s.global_step]).length
            simp [hl.2]
        · intro _
          simp
        · intro hd
          exact List.mem_append_right _ (hsv hd)
  case isFalse hdvd =>
    rcases afterExt_shape o cfg s ev with hE | ⟨s1, tail, hcont, hep, hgs, had, hat, has, hsv⟩
    · obtain ⟨e, he⟩ := hE
      left
      exact ⟨e, he⟩
    · right
      refine ⟨s1, tail, hcont, hep, hgs, ?_, fun hd => absurd hd hdvd, hsv⟩
      intro hl
      constructor
      · rw [had, hat]
        exact hl.1
      · rw [hat, has]
        exact hl.2

theorem loopIter_ok_shape (o : Oracle) (cfg : TrainCfg) (s : LoopSt) (r : StepRes)
    (hstep : o.stepOf s.w.ctr = .ok r) :
    (∃ e, loopIter o cfg s = .err e)
    ∨ ∃ s1 ev1, (loopIter o cfg s = .cont s1 ev1 ∨ loopIter o cfg s = .brk s1 ev1)
        ∧ s1.w.h.epoch_step = s.w.h.epoch_step + 1
        ∧ s1.global_step = s.global_step + 1
        ∧ (lensOk s → lensOk s1)
        ∧ (loopIter o cfg s = .cont s1 ev1 →
            (((s.global_step + 1) % cfg.steps_per_eval = 0 →
              Event.saveCkpt cfg.out_dir (s.global_step + 1) ∈ ev1)
            ∧ ((s.global_step + 1) % cfg.steps_per_ext = 0 →
              Event.saveCkpt cfg.out_dir (s.global_step + 1) ∈ ev1))) := by
  simp only [loopIter, hstep]
  by_cases hsps : cfg.steps_per_stats = 0
  · left
    exact ⟨.zeroDivision, by rw [if_pos hsps]⟩
  · rw [if_neg hsps]
    by_cases hmod : (s.global_step + 1) % cfg.steps_per_stats = 0
    · rw [if_pos hmod]
      cases hd1 : (s.checkpoint_loss.padd
          (r.step_loss.pmul (PFloat.val (r.batch_size : ℚ)))).pdiv
          (s.checkpoint_predict_count.padd r.step_predict_count) with
      | none => left; exact ⟨.zeroDivision, by simp only [hd1]⟩
      | some x =>
        simp only [hd1]
        cases hd2 : (s.checkpoint_total_count.padd
            (PFloat.val (r.step_word_count : ℚ))).pdiv
            (PFloat.val (1000 * (s.step_time + r.elapsed))) with
        | none => left; exact ⟨.zeroDivision, by simp only [hd2]⟩
        | some spd =>
          simp only [hd2]
          by_cases hnan : (PFloat.safeExp x).isNaN = true
          · rw [if_pos hnan]
            right
            refine ⟨_, _, Or.inr rfl, rfl, rfl, fun hl => hl, fun hc => absurd hc (by simp)⟩
          · rw [if_neg hnan]
            rcases afterStats_shape o cfg
                { w := { s.w.bump with
                          h := { s.w.bump.h with epoch_step := s.w.bump.h.epoch_step + 1 } }
                , global_step := s.global_step + 1
                , step_time := 0
                , checkpoint_loss := PFloat.val 0
                , checkpoint_predict_count := PFloat.val 0
                , checkpoint_total_count := PFloat.val 0
                , avg_step_time := (s.step_time + r.elapsed) / (cfg.steps_per_stats : ℚ)
                , speed := spd
                , train_ppl := PFloat.safeExp x
                , dev_ppl := s.dev_ppl, test_ppl := s.test_ppl
                , all_dev := s.all_dev, all_test := s.all_test, all_steps := s.all_steps }
                [Event.stepSummary (s.global_step + 1),
                 Event.printStats (s.global_step + 1) (PFloat.safeExp x)] with
              ⟨e, he⟩ | ⟨s1, tail, hcont, hep, hgs, hlens, hsv1, hsv2⟩
            · left
              exact ⟨e, he⟩
            · right
              refine ⟨s1, _, Or.inl hcont, ?_, ?_, ?_, ?_⟩
              · rw [hep]
                rfl
              · rw [hgs]
              · exact fun hl => hlens hl
              · intro _
                exact ⟨fun hd => List.mem_append_right _ (hsv1 hd),
                  fun hd => List.mem_append_right _ (hsv2 hd)⟩
    · rw [if_neg hmod]
      rcases afterStats_shape o cfg
          { w := { s.w.bump with
                    h := { s.w.bump.h with epoch_step := s.w.bump.h.epoch_step + 1 } }
          , global_step := s.global_step + 1
          , step_time := s.step_time + r.elapsed
          , checkpoint_loss := s.checkpoint_loss.padd
              (r.step_loss.pmul (PFloat.val (r.batch_size : ℚ)))
          , checkpoint_predict_count := s.checkpoint_predict_count.padd r.step_predict_count
          , checkpoint_total_count := s.checkpoint_total_count.padd
              (PFloat.val (r.step_word_count : ℚ))
          , avg_step_time := s.avg_step_time
          , speed := s.speed
          , train_ppl := s.train_ppl
          , dev_ppl := s.dev_ppl, test_ppl := s.test_ppl
          , all_dev := s.all_dev, all_test := s.all_test, all_steps := s.all_steps }
          [Event.stepSummary (s.global_step + 1)] with
        ⟨e, he⟩ | ⟨s1, tail, hcont, hep, hgs, hlens, hsv1, hsv2⟩
      · left
        exact ⟨e, he⟩
      · right
        refine ⟨s1, _, Or.inl hcont, ?_, ?_, ?_, ?_⟩
        · rw [hep]
          rfl
        · rw [hgs]
        · exact fun hl => hlens hl
        · intro _
          exact ⟨fun hd => List.mem_append_right _ (hsv1 hd),
            fun hd => List.mem_append_right _ (hsv2 hd)⟩

theorem loopIter_lens (o : Oracle) (cfg : TrainCfg) (s s1 : LoopSt) (ev1 : List Event)
    (hiter : loopIter o cfg s = .cont s1 ev1 ∨ loopIter o cfg s = .brk s1 ev1)
    (hl : lensOk s) : lensOk s1 := by
  cases hst : o.stepOf s.w.ctr with
  | outOfRange =>
    simp only [loopIter, hst] at hiter
    cases hre : run_external_eval o cfg.model_dir cfg.eval_only
        { s.w.bump with h := { s.w.bump.h with epoch_step := 0 } } with
    | error e =>
      simp only [hre] at hiter
      rcases hiter with h | h <;> exact absurd h (by simp)
    | ok p =>
      obtain ⟨sc1, w1, evB⟩ := p
      simp only [hre] at hiter
      rcases hiter with h | h
      · obtain ⟨h1, _⟩ := IterRes.cont.inj h
        rw [← h1]
        exact hl
      · exact absurd h (by simp)
  | ok r =>
    rcases loopIter_ok_shape o cfg s r hst with ⟨e, he⟩ | ⟨s1', ev1', hor, _, _, hlens, _⟩
    · rcases hiter with h | h <;> rw [he] at h <;> exact absurd h (by simp)
    · have hss : s1' = s1 := by
        rcases hor with h' | h' <;> rcases hiter with h | h <;> rw [h'] at h
        · exact (IterRes.cont.inj h).1
        · exact absurd h (by simp)
        · exact absurd h (by simp)
        · exact (IterRes.brk.inj h).1
      exact hss ▸ hlens hl

theorem trainLoop_lens (o : Oracle) (cfg : TrainCfg) :
    ∀ (fuel : Nat) (s s2 : LoopSt) (ev2 : List Event),
      (trainLoop o cfg fuel s = .done s2 ev2 ∨ trainLoop o cfg fuel s = .broke s2 ev2) →
      lensOk s → lensOk s2 := by
  intro fuel
  induction fuel with
  | zero =>
    intro s s2 ev2 h hl
    unfold trainLoop at h
    split at h
    · rcases h with h | h <;> exact absurd h (by simp)
    · rcases h with h | h
      · obtain ⟨h1, _⟩ := LoopOut.done.inj h
        exact h1 ▸ hl
      · exact absurd h (by simp)
  | succ n ih =>
    intro s s2 ev2 h hl
    unfold trainLoop at h
    split at h
    · cases hit : loopIter o cfg s with
      | err e =>
        simp only [hit] at h
        rcases h with h | h <;> exact absurd h (by simp)
      | brk s1 ev =>
        simp only [hit] at h
        rcases h with h | h
        · exact absurd h (by simp)
        · obtain ⟨h1, _⟩ := LoopOut.broke.inj h
          exact h1 ▸ loopIter_lens o cfg s s1 ev (Or.inr hit) hl
      | cont s1 ev =>
        simp only [hit] at h
        have hl1 := loopIter_lens o cfg s s1 ev (Or.inl hit) hl
        cases htl : trainLoop o cfg n s1 with
        | done s2' ev2' =>
          simp only [htl] at h
          rcases h with h | h
          · obtain ⟨h1, _⟩ := LoopOut.done.inj h
            exact h1 ▸ ih s1 s2' ev2' (Or.inl htl) hl1
          · exact absurd h (by simp)
        | broke s2' ev2' =>
          simp only [htl] at h
          rcases h with h | h
          · exact absurd h (by simp)
          · obtain ⟨h1, _⟩ := LoopOut.broke.inj h
            exact h1 ▸ ih s1 s2' ev2' (Or.inr htl) hl1
        | err e =>
          simp only [htl] at h
          rcases h with h | h <;> exact absurd h (by simp)
        | fuelOut s2' ev2' =>
          simp only [htl] at h
          rcases h with h | h <;> exact absurd h (by simp)
    · rcases h with h | h
      · obtain ⟨h1, _⟩ := LoopOut.done.inj h
        exact h1 ▸ hl
      · exact absurd h (by simp)

/-- C9: when a training step raises `OutOfRangeError`, the iteration
leaves `global_step` and all accumulated statistics unchanged, resets
`hparams.epoch_step` to 0, runs one external evaluation, re-initialises
the train iterator with skip count 0, and the loop continues (the
iteration yields `cont`, not `brk` or an error). -/
theorem c9_out_of_range (o : Oracle) (cfg : TrainCfg) (s : LoopSt)
    (sc : (String → PFloat) × Option (String → PFloat)) (w1 : World) (evB : List Event)
    (hstep : o.stepOf s.w.ctr = .outOfRange)
    (hext : run_external_eval o cfg.model_dir cfg.eval_only
      { s.w.bump with h := { s.w.bump.h with epoch_step := 0 } } = .ok (sc, w1, evB)) :
    loopIter o cfg s = .cont { s with w := w1 }
      ([Event.printOut ("# Finished an epoch, step " ++ toString s.global_step
          ++ ". Perform external evaluation")] ++ evB ++ [Event.initTrainIterator 0])
    ∧ w1.h.epoch_step = 0
    ∧ LoopSt.global_step { s with w := w1 } = s.global_step
    ∧ LoopSt.step_time { s with w := w1 } = s.step_time
    ∧ LoopSt.checkpoint_loss { s with w := w1 } = s.checkpoint_loss
    ∧ LoopSt.checkpoint_predict_count { s with w := w1 } = s.checkpoint_predict_count
    ∧ LoopSt.checkpoint_total_count { s with w := w1 } = s.checkpoint_total_count := by
  obtain ⟨b, hb⟩ := run_external_eval_h _ _ _ _ _ _ _ hext
  refine ⟨?_, ?_, rfl, rfl, rfl, rfl, rfl⟩
  · simp only [loopIter, hstep, hext]
  · rw [hb]

/-- Oracle whose training step always reports an exhausted dataset. -/
def oWoor : Oracle := { oW with stepOf := fun _ => .outOfRange }

/-- Concrete loop state for the loop witnesses. -/
def sW : LoopSt :=
  { w := wW, global_step := 0, step_time := 0, checkpoint_loss := PFloat.val 0
  , checkpoint_predict_count := PFloat.val 0, checkpoint_total_count := PFloat.val 0
  , avg_step_time := 0, speed := PFloat.val 0, train_ppl := PFloat.val 0
  , dev_ppl := PFloat.val 7, test_ppl := none
  , all_dev := [PFloat.val 7], all_test := [none], all_steps := [0] }

/-- Concrete external-eval run after an epoch boundary. -/
def c9res : Except PyErr
    (((String → PFloat) × Option (String → PFloat)) × World × List Event) :=
  run_external_eval oWoor (mkCfg hpW false).model_dir (mkCfg hpW false).eval_only
    { sW.w.bump with h := { sW.w.bump.h with epoch_step := 0 } }

/-- Scores of the concrete epoch-boundary external eval. -/
def c9sc : (String → PFloat) × Option (String → PFloat) :=
  match c9res with
  | .ok (sc, _, _) => sc
  | .error _ => (fun _ => PFloat.val 0, none)

/-- World of the concrete epoch-boundary external eval. -/
def c9w1 : World :=
  match c9res with
  | .ok (_, w1, _) => w1
  | .error _ => wW

/-- Events of the concrete epoch-boundary external eval. -/
def c9ev : List Event :=
  match c9res with
  | .ok (_, _, ev) => ev
  | .error _ => []

/-- Witness for C9 on a concrete out-of-range step. -/
theorem c9_out_of_range_witness :
    loopIter oWoor (mkCfg hpW false) sW = .cont { sW with w := c9w1 }
      ([Event.printOut ("# Finished an epoch, step 0. Perform external evaluation")]
        ++ c9ev ++ [Event.initTrainIterator 0])
    ∧ c9w1.h.epoch_step = 0 := by
  have h := c9_out_of_range oWoor (mkCfg hpW false) sW c9sc c9w1 c9ev rfl (by rfl)
  exact ⟨h.1, h.2.1⟩

/-- Recogniser for train-iterator initialisation events. -/
def isTrainInitEv : Event → Bool
  | .initTrainIterator _ => true
  | _ => false

theorem sample_decode_no_tii (o : Oracle) (gs : Nat) (w w1 : World) (evS : List Event)
    (hok : sample_decode o gs w = .ok (w1, evS)) :
    evS.countP isTrainInitEv = 0 := by
  simp only [sample_decode] at hok
  split at hok
  · exact absurd hok (by simp)
  · split at hok
    · exact absurd hok (by simp)
    · simp only [Except.ok.injEq, Prod.mk.injEq] at hok
      obtain ⟨_, hev⟩ := hok
      subst hev
      split <;> simp [List.countP_append, List.countP_cons, isTrainInitEv]

theorem extEvalMetrics_no_tii (gs : Nat) (l : String) (sob : Bool) (sc : String → PFloat) :
    ∀ (ms : List String) (w : World),
      ((extEvalMetrics gs l sob sc ms w).2).countP isTrainInitEv = 0 := by
  intro ms
  induction ms with
  | nil => intro w; rfl
  | cons m rest ih =>
    intro w
    simp only [extEvalMetrics, List.countP_append, ih]
    unfold extEvalMetricStep
    split <;> simp [List.countP_cons, isTrainInitEv]

theorem external_eval_no_tii (o : Oracle) (gs : Nat) (l : String) (srcs : List String)
    (ib : Nat) (tf : String) (sob : Bool) (w : World) :
    ((external_eval o gs l srcs ib tf sob w).2.2).countP isTrainInitEv = 0 := by
  simp only [external_eval]
  split <;>
    simp [List.countP_append, List.countP_cons, isTrainInitEv, extEvalMetrics_no_tii]

theorem run_internal_eval_no_tii (o : Oracle) (md : String) (w : World)
    (dt : PFloat × Option PFloat) (w' : World) (ev : List Event)
    (hok : run_internal_eval o md w = .ok (dt, w', ev)) :
    ev.countP isTrainInitEv = 0 := by
  simp only [run_internal_eval] at hok
  cases hs : sample_decode o (w.ckpt md) w with
  | error e => simp only [hs] at hok; exact absurd hok (by simp)
  | ok p =>
    obtain ⟨w1, evS⟩ := p
    have hcS := sample_decode_no_tii o (w.ckpt md) w w1 evS hs
    simp only [hs, internal_eval] at hok
    split at hok <;>
      simp only [Except.ok.injEq, Prod.mk.injEq] at hok <;>
      obtain ⟨_, _, hev⟩ := hok <;>
      subst hev <;>
      simp [List.countP_append, List.countP_cons, isTrainInitEv, hcS]

theorem run_external_eval_no_tii (o : Oracle) (md : String) (eo : Bool) (w : World)
    (ds : (String → PFloat) × Option (String → PFloat)) (w' : World) (ev : List Event)
    (hok : run_external_eval o md eo w = .ok (ds, w', ev)) :
    ev.countP isTrainInitEv = 0 := by
  simp only [run_external_eval] at hok
  cases hs : sample_decode o (w.ckpt md) w with
  | error e => simp only [hs] at hok; exact absurd hok (by simp)
  | ok p =>
    obtain ⟨w1, evS⟩ := p
    have hcS := sample_decode_no_tii o (w.ckpt md) w w1 evS hs
    have hcD := external_eval_no_tii o (w.ckpt md) ("dev") o.dev_src_data
      w1.h.infer_batch_size (devTgtFile w1.h) (!eo) w1
    simp only [hs] at hok
    split at hok <;>
      simp only [Except.ok.injEq, Prod.mk.injEq] at hok <;>
      obtain ⟨_, _, hev⟩ := hok <;>
      subst hev <;>
      simp [List.countP_append, List.countP_cons, isTrainInitEv, hcS, hcD,
        external_eval_no_tii]

/-- Witness for C5: in eval-only mode the loop body never runs. -/
theorem c5_loop_control_witness : trainLoop oW (mkCfg hpW true) 3 sW = .done sW [] :=
  (c5_loop_control oW (mkCfg hpW true)).1 rfl 3 sW

theorem train_finished_shape (o : Oracle) (h0 : Hparams) (eo : Bool) (fuel : Nat)
    (ad : List PFloat) (at2 : List (Option PFloat)) (as2 : List Nat) (ev : List Event)
    (hrun : train o h0 eo fuel = (.finished ad at2 as2, ev)) :
    ∃ mc dt0 w1 evD p2 w2 evE s0 s evL evP,
      selectModelCreator h0 = .ok mc
      ∧ run_internal_eval o (mkCfg h0 eo).model_dir
          { ctr := 0, ckpt := o.initCkpt, h := h0 } = .ok (dt0, w1, evD)
      ∧ run_external_eval o (mkCfg h0 eo).model_dir eo w1 = .ok (p2, w2, evE)
      ∧ s0 = ({ w := w2, global_step := o.initCkpt ((mkCfg h0 eo).model_dir)
              , step_time := 0, checkpoint_loss := PFloat.val 0
              , checkpoint_predict_count := PFloat.val 0
              , checkpoint_total_count := PFloat.val 0, avg_step_time := 0
              , speed := PFloat.val 0, train_ppl := PFloat.val 0
              , dev_ppl := dt0.1, test_ppl := dt0.2
              , all_dev := [dt0.1], all_test := [dt0.2]
              , all_steps := [o.initCkpt ((mkCfg h0 eo).model_dir)] } : LoopSt)
      ∧ (trainLoop o (mkCfg h0 eo) fuel s0 = .done s evL
          ∨ trainLoop o (mkCfg h0 eo) fuel s0 = .broke s evL)
      ∧ postLoop o (mkCfg h0 eo) s = (.finished ad at2 as2, evP)
      ∧ ev = createModelsEv mc
          ++ [ Event.openLogFile h0.out_dir, Event.createSession ("train")
             , Event.createSession ("eval"), Event.createSession ("infer") ]
          ++ [ Event.loadModel ("train") ((mkCfg h0 eo).model_dir)
                 (o.initCkpt ((mkCfg h0 eo).model_dir))
             , Event.createSummaryWriter (pathJoin h0.out_dir
                 (if eo then "eval_log" else "train_log")) ]
          ++ evD ++ evE
          ++ [ Event.printStartStep (o.initCkpt ((mkCfg h0 eo).model_dir))
             , Event.initTrainIterator (w2.h.batch_size * w2.h.epoch_step) ]
          ++ evL ++ evP := by
  simp only [train] at hrun
  cases hsel : selectModelCreator h0 with
  | error msg => simp only [hsel] at hrun; exact absurd hrun (by simp)
  | ok mc =>
    simp only [hsel] at hrun
    split at hrun
    · exact absurd hrun (by simp)
    · cases hri : run_internal_eval o (mkCfg h0 eo).model_dir
          { ctr := 0, ckpt := o.initCkpt, h := h0 } with
      | error e => simp only [hri] at hrun; exact absurd hrun (by simp)
      | ok p =>
        obtain ⟨dt0, w1, evD⟩ := p
        simp only [hri] at hrun
        cases hre : run_external_eval o (mkCfg h0 eo).model_dir eo w1 with
        | error e => simp only [hre] at hrun; exact absurd hrun (by simp)
        | ok q =>
          obtain ⟨p2, w2, evE⟩ := q
          simp only [hre] at hrun
          split at hrun
          next e heq => exact absurd hrun (by simp)
          next s2 ev2 heq => exact absurd hrun (by simp)
          next s2 ev2 heq =>
            rcases hpl : postLoop o (mkCfg h0 eo) s2 with ⟨out, evP⟩
            rw [hpl] at hrun
            simp only [Prod.mk.injEq] at hrun
            obtain ⟨hout, hev⟩ := hrun
            subst hev
            refine ⟨mc, dt0, w1, evD, p2, w2, evE, _, s2, ev2, evP, rfl, rfl, hre, rfl,
              Or.inl heq, hout ▸ hpl, ?_⟩
            simp [List.append_assoc]
          next s2 ev2 heq =>
            rcases hpl : postLoop o (mkCfg h0 eo) s2 with ⟨out, evP⟩
            rw [hpl] at hrun
            simp only [Prod.mk.injEq] at hrun
            obtain ⟨hout, hev⟩ := hrun
            subst hev
            refine ⟨mc, dt0, w1, evD, p2, w2, evE, _, s2, ev2, evP, rfl, rfl, hre, rfl,
              Or.inr heq, hout ▸ hpl, ?_⟩
            simp [List.append_assoc]

/-- C10: before the training loop starts, the train iterator is
initialised with skip count `hparams.batch_size * hparams.epoch_step`
(the first train-iterator initialisation of the run uses exactly this
skip count), and `hparams.epoch_step` is incremented by one after each
successful training step. -/
theorem c10_skip_count (o : Oracle) (h0 : Hparams) (eo : Bool) (fuel : Nat)
    (ad : List PFloat) (at2 : List (Option PFloat)) (as2 : List Nat) (ev : List Event)
    (hrun : train o h0 eo fuel = (.finished ad at2 as2, ev)) :
    (∃ pre post,
        ev = pre ++ [Event.initTrainIterator (h0.batch_size * h0.epoch_step)] ++ post
        ∧ pre.countP isTrainInitEv = 0)
    ∧ (∀ (cfg : TrainCfg) (s : LoopSt) (r : StepRes), o.stepOf s.w.ctr = .ok r →
        ∀ (s1 : LoopSt) (ev1 : List Event),
          (loopIter o cfg s = .cont s1 ev1 ∨ loopIter o cfg s = .brk s1 ev1) →
          s1.w.h.epoch_step = s.w.h.epoch_step + 1) := by
  obtain ⟨mc, dt0, w1, evD, p2, w2, evE, s0, s, evL, evP, hsel, hri, hre, hs0, htl, hpl, hev⟩ :=
    train_finished_shape o h0 eo fuel ad at2 as2 ev hrun
  constructor
  · obtain ⟨hh1, _⟩ := run_internal_eval_shape _ _ _ _ _ _ hri
    obtain ⟨b, hb⟩ := run_external_eval_h _ _ _ _ _ _ _ hre
    have hskip : w2.h.batch_size * w2.h.epoch_step = h0.batch_size * h0.epoch_step := by
      rw [hb, hh1]
    refine ⟨createModelsEv mc
        ++ [ Event.openLogFile h0.out_dir, Event.createSession ("train")
           , Event.createSession ("eval"), Event.createSession ("infer") ]
        ++ [ Event.loadModel ("train") ((mkCfg h0 eo).model_dir)
               (o.initCkpt ((mkCfg h0 eo).model_dir))
           , Event.createSummaryWriter (pathJoin h0.out_dir
               (if eo then "eval_log" else "train_log")) ]
        ++ evD ++ evE ++ [Event.printStartStep (o.initCkpt ((mkCfg h0 eo).model_dir))],
      evL ++ evP, ?_, ?_⟩
    · rw [hev, ← hskip]
      simp [List.append_assoc]
    · have hcD := run_internal_eval_no_tii _ _ _ _ _ _ hri
      have hcE := run_external_eval_no_tii _ _ _ _ _ _ _ hre
      simp [List.countP_append, List.countP_cons, isTrainInitEv, createModelsEv, hcD, hcE]
  · intro cfg s r hst s1 ev1 hiter
    rcases loopIter_ok_shape o cfg s r hst with ⟨e, he⟩ | ⟨s1', ev1', hor, hep, _, _, _⟩
    · rcases hiter with hc | hc <;> rw [he] at hc <;> exact absurd hc (by simp)
    · have hss : s1' = s1 := by
        rcases hor with h' | h' <;> rcases hiter with hc | hc <;> rw [h'] at hc
        · exact (IterRes.cont.inj hc).1
        · exact absurd hc (by simp)
        · exact absurd hc (by simp)
        · exact (IterRes.brk.inj hc).1
      exact hss ▸ hep

/-- C8: in every finished run the three result lists have equal length,
and in eval-only mode the run returns exactly the initial evaluation's
values duplicated (the post-loop re-evaluation is skipped). -/
theorem c8_result_lists (o : Oracle) (h0 : Hparams) (eo : Bool) (fuel : Nat)
    (ad : List PFloat) (at2 : List (Option PFloat)) (as2 : List Nat) (ev : List Event)
    (hrun : train o h0 eo fuel = (.finished ad at2 as2, ev)) :
    (ad.length = at2.length ∧ at2.length = as2.length)
    ∧ (eo = true → ∃ d t g, ad = [d, d] ∧ at2 = [t, t] ∧ as2 = [g, g]) := by
  obtain ⟨mc, dt0, w1, evD, p2, w2, evE, s0, s, evL, evP, hsel, hri, hre, hs0, htl, hpl, hev⟩ :=
    train_finished_shape o h0 eo fuel ad at2 as2 ev hrun
  have hl0 : lensOk s0 := by rw [hs0]; exact ⟨rfl, rfl⟩
  have hls : lensOk s := trainLoop_lens o (mkCfg h0 eo) fuel s0 s evL htl hl0
  constructor
  · unfold postLoop at hpl
    split at hpl
    · simp only [Prod.mk.injEq, TrainOutcome.finished.injEq] at hpl
      obtain ⟨⟨had, hat, has⟩, _⟩ := hpl
      rw [← had, ← hat, ← has]
      simp only [List.length_append, List.length_singleton]
      exact ⟨by rw [hls.1], by rw [hls.2]⟩
    · cases hri2 : run_internal_eval o (mkCfg h0 eo).model_dir
          { s.w with ckpt := updCkpt s.w.ckpt (mkCfg h0 eo).out_dir s.global_step } with
      | error e => simp only [hri2] at hpl; exact absurd hpl (by simp)
      | ok p =>
        obtain ⟨dt, w3, evI⟩ := p
        simp only [hri2] at hpl
        cases hre2 : run_external_eval o (mkCfg h0 eo).model_dir (mkCfg h0 eo).eval_only w3 with
        | error e => simp only [hre2] at hpl; exact absurd hpl (by simp)
        | ok q =>
          obtain ⟨p3, w4, evX⟩ := q
          simp only [hre2, Prod.mk.injEq, TrainOutcome.finished.injEq] at hpl
          obtain ⟨⟨had, hat, has⟩, _⟩ := hpl
          rw [← had, ← hat, ← has]
          simp only [List.length_append, List.length_singleton]
          exact ⟨by rw [hls.1], by rw [hls.2]⟩
  · intro heo
    subst heo
    have hdone := trainLoop_eval_only o (mkCfg h0 true) rfl fuel s0
    have hs0s : s0 = s ∧ evL = [] := by
      rcases htl with h | h
      · rw [hdone] at h
        obtain ⟨h1, h2⟩ := LoopOut.done.inj h
        exact ⟨h1, h2.symm⟩
      · rw [hdone] at h
        exact absurd h (by simp)
    obtain ⟨hs0s1, -⟩ := hs0s
    unfold postLoop at hpl
    rw [if_pos (show (mkCfg h0 true).eval_only = true from rfl)] at hpl
    simp only [Prod.mk.injEq, TrainOutcome.finished.injEq] at hpl
    obtain ⟨⟨had, hat, has⟩, _⟩ := hpl
    refine ⟨dt0.1, dt0.2, o.initCkpt ((mkCfg h0 true).model_dir), ?_, ?_, ?_⟩
    · rw [← had, ← hs0s1, hs0]
      rfl
    · rw [← hat, ← hs0s1, hs0]
      rfl
    · rw [← has, ← hs0s1, hs0]
      rfl

/-- Dev-perplexity list of a concrete finished training run. -/
def trAdW : List PFloat :=
  match (train oW hpW false 1).1 with
  | .finished ad _ _ => ad
  | _ => []

/-- Test-perplexity list of a concrete finished training run. -/
def trAtW : List (Option PFloat) :=
  match (train oW hpW false 1).1 with
  | .finished _ at2 _ => at2
  | _ => []

/-- Step list of a concrete finished training run. -/
def trAsW : List Nat :=
  match (train oW hpW false 1).1 with
  | .finished _ _ as2 => as2
  | _ => []

/-- Event trace of a concrete finished training run. -/
def trEvW : List Event := (train oW hpW false 1).2

/-- Witness for C10: the concrete run initialises the train iterator with
skip count `batch_size * epoch_step` before any other train-iterator
initialisation. -/
theorem c10_skip_count_witness :
    ∃ pre post,
      trEvW = pre ++ [Event.initTrainIterator (hpW.batch_size * hpW.epoch_step)] ++ post
      ∧ pre.countP isTrainInitEv = 0 :=
  (c10_skip_count oW hpW false 1 trAdW trAtW trAsW trEvW (by rfl)).1

/-- Dev-perplexity list of a concrete eval-only run. -/
def trEAdW : List PFloat :=
  match (train oW hpW true 1).1 with
  | .finished ad _ _ => ad
  | _ => []

/-- Test-perplexity list of a concrete eval-only run. -/
def trEAtW : List (Option PFloat) :=
  match (train oW hpW true 1).1 with
  | .finished _ at2 _ => at2
  | _ => []

/-- Step list of a concrete eval-only run. -/
def trEAsW : List Nat :=
  match (train oW hpW true 1).1 with
  | .finished _ _ as2 => as2
  | _ => []

/-- Event trace of a concrete eval-only run. -/
def trEEvW : List Event := (train oW hpW true 1).2

/-- Witness for C8 on a concrete eval-only run: the lists have equal
length and duplicate the initial evaluation. -/
theorem c8_result_lists_witness :
    trEAdW.length = trEAtW.length
      ∧ ∃ d t g, trEAdW = [d, d] ∧ trEAtW = [t, t] ∧ trEAsW = [g, g] := by
  have h := c8_result_lists oW hpW true 1 trEAdW trEAtW trEAsW trEEvW (by rfl)
  exact ⟨h.1.1, h.2 rfl⟩

/-- C2: `steps_per_eval` is `10 * steps_per_stats` and
`steps_per_external_eval` defaults to `5 * steps_per_eval` when unset;
after every completed training step whose new global step is divisible by
`steps_per_eval` (resp. by `steps_per_external_eval`) the continuing
iteration's trace holds a checkpoint save to `out_dir` (file
`translate.ckpt`) at that step; and after the loop exits a training run
saves one more checkpoint at the final global step. -/
theorem c2_checkpoint_cadence (o : Oracle) (h : Hparams) :
    (stepsPerEvalOf h = 10 * h.steps_per_stats)
    ∧ (h.steps_per_external_eval = 0 → stepsPerExtOf h = 5 * stepsPerEvalOf h)
    ∧ (h.steps_per_external_eval ≠ 0 → stepsPerExtOf h = h.steps_per_external_eval)
    ∧ (∀ (cfg : TrainCfg) (s : LoopSt) (r : StepRes), o.stepOf s.w.ctr = .ok r →
        ∀ (s1 : LoopSt) (ev1 : List Event), loopIter o cfg s = .cont s1 ev1 →
          (((s.global_step + 1) % cfg.steps_per_eval = 0 →
            Event.saveCkpt cfg.out_dir (s.global_step + 1) ∈ ev1)
          ∧ ((s.global_step + 1) % cfg.steps_per_ext = 0 →
            Event.saveCkpt cfg.out_dir (s.global_step + 1) ∈ ev1)))
    ∧ (∀ (cfg : TrainCfg) (s : LoopSt), cfg.eval_only = false →
        ∃ rest, (postLoop o cfg s).2
          = Event.saveCkpt cfg.out_dir s.global_step :: rest) := by
  refine ⟨rfl, ?_, ?_, ?_, ?_⟩
  · intro h0
    simp [stepsPerExtOf, h0]
  · intro h0
    simp [stepsPerExtOf, h0]
  · intro cfg s r hst s1 ev1 hc
    rcases loopIter_ok_shape o cfg s r hst with ⟨e, he⟩ | ⟨s1', ev1', hor, _, _, _, hsave⟩
    · rw [he] at hc
      exact absurd hc (by simp)
    · rcases hor with h' | h'
      · have hmem := hsave h'
        rw [h'] at hc
        obtain ⟨h1, h2⟩ := IterRes.cont.inj hc
        exact h2 ▸ hmem
      · rw [h'] at hc
        exact absurd hc (by simp)
  · intro cfg s heo
    unfold postLoop
    rw [if_neg (by simp [heo])]
    cases hri2 : run_internal_eval o cfg.model_dir
        { s.w with ckpt := updCkpt s.w.ckpt cfg.out_dir s.global_step } with
    | error e => exact ⟨[], by simp [hri2]⟩
    | ok p =>
      obtain ⟨dt, w3, evI⟩ := p
      cases hre2 : run_external_eval o cfg.model_dir cfg.eval_only w3 with
      | error e => exact ⟨evI, by simp [hri2, hre2]⟩
      | ok q =>
        obtain ⟨p3, w4, evX⟩ := q
        exact ⟨evI ++ evX ++ [Event.printBest, Event.printFinal s.global_step,
          Event.closeWriter, Event.printDone], by simp [hri2, hre2, List.append_assoc]⟩

/-- Witness for C2: the concrete post-loop phase of a training run starts
with the final checkpoint save. -/
theorem c2_checkpoint_cadence_witness :
    ∃ rest, (postLoop oW (mkCfg hpW false) sW).2
      = Event.saveCkpt ("out") 0 :: rest :=
  (c2_checkpoint_cadence oW hpW).2.2.2.2 (mkCfg hpW false) sW rfl
